import Mathlib

/-!
# IOMarket: the market offer ledger (`src/io/iomarket.cpp`)

A shallow embedding of the functions of `IOMarket` and of the store they talk
to.  The two tables are lists of rows in storage order, a column holds a
natural number, and every query the source sends is the corresponding list
operation: a `WHERE` is a filter, `LIMIT 1` the first match, `GROUP BY` one row
for each key that occurs, in an order the backend chooses.  The collaborators whose code is outside
`iomarket.cpp` (configuration, enumerators, item table, session registry,
inventory, the backend's answer to a statement) are the fields of `Env`, so
every theorem holds for all of their behaviours.  A select is answered by the
store; a backend that fails on a select is not modelled.  Time is the clock
reading passed to a function.
-/

namespace IOMarket

/-! ## Result-set accessors and machine integers -/

/-- Modelled from the spec: the accessor `DBResult::getU16` is not among the
sources; the result set (section 6) hands a column out as an unsigned 16-bit
integer, here the stored number reduced mod 2^16, so that a value in range is
read unchanged. -/
def getU16 (v : Nat) : Nat := v % 65536

/-- Modelled from the spec: the accessor `DBResult::getU32`, likewise for 32 bits. -/
def getU32 (v : Nat) : Nat := v % 4294967296

/-- Modelled from the spec: the accessor `DBResult::getU64`, likewise for 64 bits. -/
def getU64 (v : Nat) : Nat := v % 18446744073709551616

/-- Conversion of an integer to `uint32_t`. -/
def toU32 (i : Int) : Nat := (i % 4294967296).toNat

/-- Conversion of a `uint32_t` value to `int32_t` (two's complement). -/
def toInt32 (n : Nat) : Int :=
  if n % 4294967296 < 2147483648 then ((n % 4294967296 : Nat) : Int)
  else ((n % 4294967296 : Nat) : Int) - 4294967296

/-! ## Rows of the two tables -/

/-- A row of `market_offers`, with the columns the source names. -/
structure OfferRow where
  id : Nat
  player_id : Nat
  sale : Nat
  itemtype : Nat
  amount : Nat
  price : Nat
  created : Nat
  anonymous : Nat
  deriving DecidableEq, Repr

/-- A row of `market_history`, with the columns the source names. -/
structure HistoryRow where
  player_id : Nat
  sale : Nat
  itemtype : Nat
  amount : Nat
  price : Nat
  expires_at : Nat
  inserted : Nat
  state : Nat
  deriving DecidableEq, Repr

/-- A statement handed to `g_databaseTasks().addTask`: it is queued, not run by
the caller. -/
inductive DbTask where
  | insertHistory (row : HistoryRow)
  | selectExpired (lastExpireDate : Int)
  deriving DecidableEq, Repr

/-- The store: both tables, the queue of submitted asynchronous statements, the
next id the store assigns to an inserted offer, and the number of
`executeQuery` calls issued so far. -/
structure Database where
  market_offers : List OfferRow
  market_history : List HistoryRow
  tasks : List DbTask
  nextId : Nat
  executed : Nat
  deriving DecidableEq, Repr

/-- An entry of `Item::items`. -/
structure ItemType where
  id : Nat
  stackable : Bool
  charges : Nat
  deriving DecidableEq, Repr

/-- Everything the source obtains from outside `iomarket.cpp`. -/
structure Env where
  /-- The value `g_configManager().getNumber(MARKET_OFFER_DURATION)`, an `int32_t`. -/
  MARKET_OFFER_DURATION : Int
  /-- The value `getNumber(CHECK_EXPIRED_MARKET_OFFERS_EACH_MINUTES)`. -/
  CHECK_EXPIRED_MARKET_OFFERS_EACH_MINUTES : Int
  /-- The enumerator `MARKETACTION_BUY`. -/
  MARKETACTION_BUY : Nat
  /-- The enumerator `OFFERSTATE_EXPIRED`. -/
  OFFERSTATE_EXPIRED : Nat
  /-- The enumerator `OFFERSTATE_ACCEPTED`. -/
  OFFERSTATE_ACCEPTED : Nat
  /-- The enumerator `OFFERSTATE_ACCEPTEDEX`. -/
  OFFERSTATE_ACCEPTEDEX : Nat
  /-- The table `Item::items`. -/
  items : Nat → ItemType
  /-- The `name` column of `players`, by player id. -/
  playerName : Nat → String
  /-- Whether `g_game().getPlayerByGUID` finds a resident player. -/
  getPlayerByGUID : Nat → Bool
  /-- The result of `IOLoginData::loadPlayerById`. -/
  loadPlayerById : Nat → Bool
  /-- Whether the backend carries out the `k`-th `executeQuery` call. -/
  executeQueryOk : Nat → Bool
  /-- Whether the `k`-th `internalAddItem` call answers `RETURNVALUE_NOERROR`. -/
  internalAddItemOk : Nat → Bool
  /-- The order in which the backend returns the groups (item, action) of a
  `GROUP BY` that carries no `ORDER BY`. -/
  groupOrder : List (Nat × Nat) → List (Nat × Nat)

/-! ## Offer store -/

/-- Modelled from the spec: `Database::executeQuery` is not among the sources
(section 6: `executeQuery(text) -> success`).  Here it runs `DELETE FROM
market_offers WHERE id = offerId`: the answer is the backend's, a statement the
backend carries out removes the rows with that id (none, when there is none),
and a statement it refuses leaves the table as it is. -/
def executeDelete (env : Env) (db : Database) (offerId : Nat) : Bool × Database :=
  if env.executeQueryOk db.executed then
    (true, { db with
      market_offers := db.market_offers.filter (fun r => r.id != offerId),
      executed := db.executed + 1 })
  else
    (false, { db with executed := db.executed + 1 })

/-- The source function `IOMarket::appendHistory`: submits the insert of one history row. -/
def appendHistory (db : Database) (playerId type itemId amount price timestamp now state : Nat) :
    Database :=
  { db with tasks := db.tasks ++ [DbTask.insertHistory
      { player_id := playerId, sale := type, itemtype := itemId, amount := amount,
        price := price, expires_at := timestamp, inserted := now, state := state }] }

/-- The source function `IOMarket::moveOfferToHistory`, called when the clock reads `now`. -/
def moveOfferToHistory (env : Env) (now : Nat) (db : Database) (offerId state : Nat) :
    Bool × Database :=
  match db.market_offers.find? (fun r => r.id == offerId) with
  | none => (false, db)
  | some result =>
    match executeDelete env db offerId with
    | (false, db1) => (false, db1)
    | (true, db1) =>
      (true, appendHistory db1 (getU32 result.player_id) (getU16 result.sale)
        (getU16 result.itemtype) (getU16 result.amount) (getU32 result.price) now now state)

/-! ## Query side -/

/-- The record `MarketOffer`; a field the source does not assign holds `0` or the
empty string. -/
structure MarketOffer where
  price : Nat
  timestamp : Nat
  amount : Nat
  counter : Nat
  itemId : Nat
  playerName : String
  deriving DecidableEq, Repr

/-- The record `MarketOfferEx`; a field the source does not assign holds `0` or
the empty string. -/
structure MarketOfferEx where
  id : Nat
  playerId : Nat
  timestamp : Nat
  price : Nat
  amount : Nat
  counter : Nat
  itemId : Nat
  type : Nat
  playerName : String
  deriving DecidableEq, Repr

/-- The record `HistoryMarketOffer`. -/
structure HistoryMarketOffer where
  timestamp : Nat
  price : Nat
  itemId : Nat
  amount : Nat
  state : Nat
  deriving DecidableEq, Repr

/-- The source function `IOMarket::createOffer` at clock `now`: the insert gets the
store's next id when the backend carries the statement out. -/
def createOffer (env : Env) (now : Nat) (db : Database)
    (playerId action itemId amount price : Nat) (anonymous : Bool) : Database :=
  if env.executeQueryOk db.executed then
    { db with
      market_offers := db.market_offers ++ [
        { id := db.nextId, player_id := playerId, sale := action, itemtype := itemId,
          amount := amount, price := price, created := now,
          anonymous := if anonymous then 1 else 0 }],
      nextId := db.nextId + 1,
      executed := db.executed + 1 }
  else
    { db with executed := db.executed + 1 }

/-- The source function `IOMarket::deleteOffer`. -/
def deleteOffer (env : Env) (db : Database) (offerId : Nat) : Database :=
  (executeDelete env db offerId).2

/-- The body of the loop of `getOwnOffers` for the row the result set stands on. -/
def ownOfferOfRow (env : Env) (result : OfferRow) : MarketOffer :=
  { amount := getU16 result.amount,
    price := getU32 result.price,
    timestamp := toU32 ((getU32 result.created : Int) + env.MARKET_OFFER_DURATION),
    counter := getU32 result.id &&& 0xFFFF,
    itemId := getU16 result.itemtype,
    playerName := "" }

/-- The source function `IOMarket::getOwnOffers`: the loop pushes one entry per row of the result
set onto `offerList`. -/
def getOwnOffers (env : Env) (db : Database) (action playerId : Nat) : List MarketOffer :=
  (db.market_offers.filter (fun r => r.player_id == playerId && r.sale == action)).foldl
    (fun offerList result => offerList ++ [ownOfferOfRow env result]) []

/-- The body of the loop of `getOwnHistory` for the row the result set stands on. -/
def historyOfferOfRow (env : Env) (result : HistoryRow) : HistoryMarketOffer :=
  let offerState := getU16 result.state
  let offerState := if offerState == env.OFFERSTATE_ACCEPTEDEX then env.OFFERSTATE_ACCEPTED
    else offerState
  { itemId := getU16 result.itemtype,
    amount := getU16 result.amount,
    price := getU32 result.price,
    timestamp := getU32 result.expires_at,
    state := offerState }

/-- The source function `IOMarket::getOwnHistory`. -/
def getOwnHistory (env : Env) (db : Database) (action playerId : Nat) :
    List HistoryMarketOffer :=
  (db.market_history.filter (fun r => r.player_id == playerId && r.sale == action)).foldl
    (fun offerList result => offerList ++ [historyOfferOfRow env result]) []

/-- The source function `IOMarket::getOfferByCounter`: `created` is the `int32_t` the source computes,
and the query returns the first row that matches, or none. -/
def getOfferByCounter (env : Env) (db : Database) (timestamp counter : Nat) : MarketOfferEx :=
  let created : Int := toInt32 (toU32 ((timestamp : Int) - env.MARKET_OFFER_DURATION))
  match db.market_offers.find?
      (fun r => decide ((r.created : Int) = created) && (r.id &&& 65535) == counter) with
  | none =>
    { id := 0, playerId := 0, timestamp := 0, price := 0, amount := 0, counter := 0,
      itemId := 0, type := 0, playerName := "" }
  | some result =>
    { id := getU32 result.id,
      type := getU16 result.sale,
      amount := getU16 result.amount,
      counter := getU32 result.id &&& 0xFFFF,
      timestamp := getU32 result.created,
      price := getU32 result.price,
      itemId := getU16 result.itemtype,
      playerId := getU32 result.player_id,
      playerName := if getU16 result.anonymous == 0 then env.playerName result.player_id
        else "Anonymous" }

/-- The columns of an offer row lie within the widths the source reads them with. -/
def OfferRow.InRange (r : OfferRow) : Prop :=
  r.id < 4294967296 ∧ r.player_id < 4294967296 ∧ r.sale < 65536 ∧ r.itemtype < 65536 ∧
  r.amount < 65536 ∧ r.price < 4294967296 ∧ r.created < 4294967296 ∧ r.anonymous < 65536

instance (r : OfferRow) : Decidable r.InRange := by
  unfold OfferRow.InRange; infer_instance

/-! ## Expiry sweep -/

/-- A call the settlement makes to a collaborator outside the store, with the
answer it got. -/
inductive Event where
  | loadPlayerById (playerId : Nat) (loaded : Bool)
  | internalAddItem (playerId itemId count : Nat) (accepted : Bool)
  | savePlayer (playerId : Nat)
  | increaseBankBalance (playerId amount : Nat)
  | addEvent (delayMs : Int)
  deriving DecidableEq, Repr

/-- The world the sweep acts on: the store, the bank balance of each resident
player, the number of `internalAddItem` calls made so far and the calls made to
collaborators, oldest first. -/
structure Game where
  db : Database
  bankBalance : Nat → Nat
  addItemCalls : Nat
  log : List Event

/-- One `internalAddItem` of `count` units into the inbox of the player: the call
is logged with the inventory's answer. -/
def internalAddItem (env : Env) (g : Game) (playerId itemId count : Nat) : Bool × Game :=
  let accepted := env.internalAddItemOk g.addItemCalls
  (accepted, { g with
    addItemCalls := g.addItemCalls + 1,
    log := g.log ++ [Event.internalAddItem playerId itemId count accepted] })

/-- The loop `while (tmpAmount > 0)` of `processExpiredOffers` for a stackable item. -/
def depositStackable (env : Env) (playerId itemId : Nat) (tmpAmount : Nat) (g : Game) : Game :=
  if tmpAmount > 0 then
    let stackCount := min 100 tmpAmount
    match internalAddItem env g playerId itemId stackCount with
    | (false, g1) => g1
    | (true, g1) => depositStackable env playerId itemId (tmpAmount - stackCount) g1
  else g
termination_by tmpAmount
decreasing_by
  have : 0 < min 100 tmpAmount := Nat.lt_min.mpr ⟨by decide, by assumption⟩
  omega

/-- The loop `for (i = 0; i < amount; ++i)` of `processExpiredOffers` for an item that
does not stack, with `remaining = amount - i`. -/
def depositSingle (env : Env) (playerId itemId subType : Nat) : Nat → Game → Game
  | 0, g => g
  | remaining + 1, g =>
    match internalAddItem env g playerId itemId subType with
    | (false, g1) => g1
    | (true, g1) => depositSingle env playerId itemId subType remaining g1

/-- The deposit of `amount` units of `itemType` into the player's inbox. -/
def depositItems (env : Env) (playerId : Nat) (itemType : ItemType) (amount : Nat) (g : Game) :
    Game :=
  if itemType.stackable then
    depositStackable env playerId itemType.id amount g
  else
    let subType : Int := if itemType.charges != 0 then toInt32 itemType.charges else -1
    depositSingle env playerId itemType.id (subType % 65536).toNat amount g

/-- The settlement of a row that `moveOfferToHistory` has archived: the part of
the loop body of `processExpiredOffers` after the `continue` on a failed move.
A player is offline (`Player::isOffline`) exactly when it was loaded here
because `getPlayerByGUID` found no resident player. -/
def settle (env : Env) (g : Game) (result : OfferRow) : Game :=
  let playerId := getU32 result.player_id
  let amount := getU16 result.amount
  if getU16 result.sale == 1 then
    let itemType := env.items (getU16 result.itemtype)
    if itemType.id == 0 then g
    else if env.getPlayerByGUID playerId then
      depositItems env playerId itemType amount g
    else if env.loadPlayerById playerId then
      let g1 := { g with log := g.log ++ [Event.loadPlayerById playerId true] }
      let g2 := depositItems env playerId itemType amount g1
      { g2 with log := g2.log ++ [Event.savePlayer playerId] }
    else
      { g with log := g.log ++ [Event.loadPlayerById playerId false] }
  else
    let totalPrice := (getU64 result.price * amount) % 18446744073709551616
    if env.getPlayerByGUID playerId then
      { g with bankBalance := fun p =>
          if p = playerId then (g.bankBalance playerId + totalPrice) % 18446744073709551616
          else g.bankBalance p }
    else
      { g with log := g.log ++ [Event.increaseBankBalance playerId totalPrice] }

/-- The body of the loop of `processExpiredOffers` for the row the result set
stands on, at clock `now`. -/
def processRow (env : Env) (now : Nat) (g : Game) (result : OfferRow) : Game :=
  match moveOfferToHistory env now g.db (getU32 result.id) env.OFFERSTATE_EXPIRED with
  | (false, db1) => { g with db := db1 }
  | (true, db1) => settle env { g with db := db1 } result

/-- The source function `IOMarket::processExpiredOffers` on the rows of the result
set (no row: the null result). -/
def processExpiredOffers (env : Env) (now : Nat) (g : Game) (rows : List OfferRow) : Game :=
  rows.foldl (processRow env now) g

/-- The value `lastExpireDate` of `checkExpiredOffers` at clock `now`. -/
def lastExpireDate (env : Env) (now : Nat) : Int :=
  (now : Int) - env.MARKET_OFFER_DURATION

/-- The source function `IOMarket::checkExpiredOffers` at clock `now`: the select is
submitted as a database task, and the check is scheduled again when the
configured interval is positive. -/
def checkExpiredOffers (env : Env) (now : Nat) (g : Game) : Game :=
  let g1 := { g with db := { g.db with
    tasks := g.db.tasks ++ [DbTask.selectExpired (lastExpireDate env now)] } }
  if env.CHECK_EXPIRED_MARKET_OFFERS_EACH_MINUTES ≤ 0 then g1
  else { g1 with log := g1.log ++
    [Event.addEvent (env.CHECK_EXPIRED_MARKET_OFFERS_EACH_MINUTES * 60 * 1000)] }

/-- The rows of `SELECT ... FROM market_offers WHERE created <= lastExpireDate`. -/
def selectExpired (db : Database) (lastExpireDate : Int) : List OfferRow :=
  db.market_offers.filter (fun r => decide ((r.created : Int) ≤ lastExpireDate))

/-- One sweep: `checkExpiredOffers` at clock `now`, then the submitted select is
run and its rows are handed to `processExpiredOffers`, at clock `later`. -/
def expirySweep (env : Env) (now later : Nat) (g : Game) : Game :=
  let g1 := checkExpiredOffers env now g
  processExpiredOffers env later g1 (selectExpired g1.db (lastExpireDate env now))

/-- The sizes and answers of the `internalAddItem` calls among the events. -/
def depositCalls (events : List Event) : List (Nat × Bool) :=
  events.filterMap (fun e => match e with
    | .internalAddItem _ _ count accepted => some (count, accepted)
    | _ => none)

/-- The chunking rule in the words of the specification: each call has size
`min(100, remaining)`, `remaining` drops by the size of an accepted call, and
the calls end when `remaining` is 0 or right after a rejected call. -/
def Chunked : Nat → List (Nat × Bool) → Prop
  | remaining, [] => remaining = 0
  | remaining, (size, accepted) :: rest =>
    0 < remaining ∧ size = min 100 remaining ∧
      (if accepted then Chunked (remaining - size) rest else rest = [])

/-- The history row `moveOfferToHistory` submits for the selected row `o`. -/
def historyRowOf (o : OfferRow) (now state : Nat) : HistoryRow :=
  { player_id := getU32 o.player_id, sale := getU16 o.sale, itemtype := getU16 o.itemtype,
    amount := getU16 o.amount, price := getU32 o.price, expires_at := now, inserted := now,
    state := state }

/-! ## Statistics -/

/-- The record `MarketStatistics`. -/
structure MarketStatistics where
  numTransactions : Nat
  highestPrice : Nat
  totalPrice : Nat
  lowestPrice : Nat
  deriving DecidableEq, Repr

/-- The two maps `purchaseStatistics` and `saleStatistics`, from item id to entry. -/
structure Statistics where
  purchaseStatistics : Nat → Option MarketStatistics
  saleStatistics : Nat → Option MarketStatistics

/-- A row of the result of the aggregate query of `updateStatistics`. -/
structure StatRow where
  sale : Nat
  itemtype : Nat
  num : Nat
  min : Nat
  max : Nat
  sum : Nat
  deriving DecidableEq, Repr

/-- The aggregate `MIN` of a group (a group is never empty). -/
def minOf : List Nat → Nat
  | [] => 0
  | p :: ps => ps.foldl min p

/-- The aggregate `MAX` of a group. -/
def maxOf : List Nat → Nat
  | [] => 0
  | p :: ps => ps.foldl max p

/-- The result row of the group of `itemtype` and `sale` among the selected rows. -/
def groupRow (selected : List HistoryRow) (itemtype sale : Nat) : StatRow :=
  let prices := (selected.filter (fun r => r.itemtype == itemtype && r.sale == sale)).map
    (fun r => r.price)
  { sale := sale, itemtype := itemtype, num := prices.length, min := minOf prices,
    max := maxOf prices, sum := prices.sum }

/-- The groups of `GROUP BY itemtype, sale` over the accepted rows: each pair of
item and action that occurs, once. -/
def groupKeys (env : Env) (db : Database) : List (Nat × Nat) :=
  ((db.market_history.filter (fun r => r.state == env.OFFERSTATE_ACCEPTED)).map
    (fun r => (r.itemtype, r.sale))).dedup

/-- The rows of `SELECT sale, itemtype, COUNT(price), MIN(price), MAX(price),
SUM(price) FROM market_history WHERE state = OFFERSTATE_ACCEPTED GROUP BY
itemtype, sale`: one row for each group, in the order the backend returns
them. -/
def selectStatistics (env : Env) (db : Database) : List StatRow :=
  let selected := db.market_history.filter (fun r => r.state == env.OFFERSTATE_ACCEPTED)
  (env.groupOrder (groupKeys env db)).map (fun k => groupRow selected k.1 k.2)

/-- The assignment `map[key] = entry`. -/
def setEntry (m : Nat → Option MarketStatistics) (key : Nat) (entry : MarketStatistics) :
    Nat → Option MarketStatistics :=
  fun i => if i = key then some entry else m i

/-- The body of the loop of `updateStatistics` for the row the result set stands on. -/
def updateStatisticsRow (env : Env) (st : Statistics) (result : StatRow) : Statistics :=
  let statistics : MarketStatistics :=
    { numTransactions := getU32 result.num,
      lowestPrice := getU32 result.min,
      totalPrice := getU64 result.sum,
      highestPrice := getU32 result.max }
  let itemtype := getU16 result.itemtype
  if getU16 result.sale == env.MARKETACTION_BUY then
    { st with purchaseStatistics := setEntry st.purchaseStatistics itemtype statistics }
  else
    { st with saleStatistics := setEntry st.saleStatistics itemtype statistics }

/-- The source function `IOMarket::updateStatistics`. -/
def updateStatistics (env : Env) (db : Database) (st : Statistics) : Statistics :=
  (selectStatistics env db).foldl (updateStatisticsRow env) st

/-- The source function `IOMarket::getPurchaseStatistics` (`none` for the null pointer). -/
def getPurchaseStatistics (st : Statistics) (itemId : Nat) : Option MarketStatistics :=
  st.purchaseStatistics itemId

/-- The source function `IOMarket::getSaleStatistics`. -/
def getSaleStatistics (st : Statistics) (itemId : Nat) : Option MarketStatistics :=
  st.saleStatistics itemId

/-- The map an action's entries live in: the purchase map for Buy, the sale map
for any other action. -/
def statisticsOf (env : Env) (st : Statistics) (action itemId : Nat) :
    Option MarketStatistics :=
  if action = env.MARKETACTION_BUY then getPurchaseStatistics st itemId
  else getSaleStatistics st itemId

/-- The columns of a history row lie within the widths `appendHistory` writes them
with. -/
def HistoryRow.InRange (r : HistoryRow) : Prop :=
  r.player_id < 4294967296 ∧ r.sale < 65536 ∧ r.itemtype < 65536 ∧ r.amount < 65536 ∧
  r.price < 4294967296 ∧ r.state < 65536

instance (r : HistoryRow) : Decidable r.InRange := by
  unfold HistoryRow.InRange; infer_instance

/-- The prices of the history rows of an item and action whose state is Accepted. -/
def acceptedPrices (env : Env) (db : Database) (itemId action : Nat) : List Nat :=
  (db.market_history.filter (fun r =>
    r.state == env.OFFERSTATE_ACCEPTED && r.itemtype == itemId && r.sale == action)).map
    (fun r => r.price)

/-! ## Two calls of `moveOfferToHistory` at once

Each call issues three store operations in program order: the select, the
delete, the submission of the history insert.  A call is at one of the control
points below, and a schedule says which of two calls issues its next
operation. -/

/-- The control points of one call of `moveOfferToHistory`: before the select,
after a select that found the row, after a delete that succeeded, and the three
`return` statements of the source. -/
inductive MovePoint where
  | start
  | selected (result : OfferRow)
  | deleted (result : OfferRow)
  | returnedNotFound
  | returnedDeleteFailed
  | returnedTrue
  deriving DecidableEq, Repr

/-- The value a call has returned, once it has. -/
def MovePoint.returned : MovePoint → Option Bool
  | .returnedNotFound => some false
  | .returnedDeleteFailed => some false
  | .returnedTrue => some true
  | _ => none

/-- The next store operation of a call of `moveOfferToHistory` standing at a
control point; `none` once the call has returned. -/
def moveStep (env : Env) (now offerId state : Nat) :
    MovePoint → Database → Option (MovePoint × Database)
  | .start, db =>
    match db.market_offers.find? (fun r => r.id == offerId) with
    | none => some (.returnedNotFound, db)
    | some result => some (.selected result, db)
  | .selected result, db =>
    match executeDelete env db offerId with
    | (false, db1) => some (.returnedDeleteFailed, db1)
    | (true, db1) => some (.deleted result, db1)
  | .deleted result, db =>
    some (.returnedTrue, appendHistory db (getU32 result.player_id) (getU16 result.sale)
      (getU16 result.itemtype) (getU16 result.amount) (getU32 result.price) now now state)
  | _, _ => none

/-- One call running alone for at most `n` operations. -/
def runAlone (env : Env) (now offerId state : Nat) :
    Nat → MovePoint → Database → MovePoint × Database
  | 0, p, db => (p, db)
  | n + 1, p, db =>
    match moveStep env now offerId state p db with
    | none => (p, db)
    | some (p1, db1) => runAlone env now offerId state n p1 db1

/-- Two calls for the same offer id: the control point of each and the store. -/
structure Race where
  first : MovePoint
  second : MovePoint
  db : Database
  deriving DecidableEq, Repr

/-- The call named by `who` (`false` the first, `true` the second) issues its next
operation; `none` when that call has already returned. -/
def raceStep (env : Env) (offerId now1 state1 now2 state2 : Nat) (who : Bool) (c : Race) :
    Option Race :=
  if who then
    match moveStep env now2 offerId state2 c.second c.db with
    | none => none
    | some (p, db) => some { c with second := p, db := db }
  else
    match moveStep env now1 offerId state1 c.first c.db with
    | none => none
    | some (p, db) => some { c with first := p, db := db }

/-- The two calls interleaved as the schedule says. -/
def runSchedule (env : Env) (offerId now1 state1 now2 state2 : Nat) :
    List Bool → Race → Option Race
  | [], c => some c
  | who :: rest, c =>
    match raceStep env offerId now1 state1 now2 state2 who c with
    | none => none
    | some c1 => runSchedule env offerId now1 state1 now2 state2 rest c1

/-- The history inserts among the submitted statements. -/
def historyInserts (tasks : List DbTask) : List HistoryRow :=
  tasks.filterMap (fun t => match t with
    | .insertHistory row => some row
    | .selectExpired _ => none)

/-- The outcome the race property asks of a finished interleaving: both calls
have returned, exactly one history insert was submitted since `db0`, one call
returned true and the other returned at the not-found exit. -/
def raceOutcomeOk (db0 : Database) (final : Option Race) : Bool :=
  match final with
  | none => false
  | some c =>
    (historyInserts c.db.tasks).length == (historyInserts db0.tasks).length + 1 &&
    ((c.first == .returnedTrue && c.second == .returnedNotFound) ||
     (c.first == .returnedNotFound && c.second == .returnedTrue))

/-- What a sweep with the given cutoff keeps true of the store, relative to the
offers `orig` and the submitted statements `tasks0` it started from: the offers
are among `orig`, those created after the cutoff are all still there, and each
history insert submitted since is the row of an offer of `orig` created at or
before the cutoff. -/
def SweepInv (orig : List OfferRow) (cutoff : Int) (tasks0 : List DbTask) (now state : Nat)
    (db : Database) : Prop :=
  (∀ o ∈ db.market_offers, o ∈ orig) ∧
  db.market_offers.filter (fun r => decide (cutoff < (r.created : Int))) =
    orig.filter (fun r => decide (cutoff < (r.created : Int))) ∧
  ∃ submitted, db.tasks = tasks0 ++ submitted ∧
    ∀ h ∈ historyInserts submitted,
      ∃ o ∈ orig, (o.created : Int) ≤ cutoff ∧ h = historyRowOf o now state

/-! ## Concrete data for the closed statements -/

/-- The order of groups by item, then by action. -/
def keyLe (a b : Nat × Nat) : Prop :=
  a.1 < b.1 ∨ (a.1 = b.1 ∧ a.2 ≤ b.2)

instance : DecidableRel keyLe := fun a b => by
  unfold keyLe; infer_instance

/-- An environment in which every backend statement and every deposit
succeeds, nobody is resident, every player loads and groups come back sorted by
item and action. -/
def sampleEnv : Env where
  MARKET_OFFER_DURATION := 2592000
  CHECK_EXPIRED_MARKET_OFFERS_EACH_MINUTES := 60
  MARKETACTION_BUY := 0
  OFFERSTATE_EXPIRED := 2
  OFFERSTATE_ACCEPTED := 3
  OFFERSTATE_ACCEPTEDEX := 255
  items := fun i => { id := i, stackable := true, charges := 0 }
  playerName := fun _ => "Seller"
  getPlayerByGUID := fun _ => false
  loadPlayerById := fun _ => true
  executeQueryOk := fun _ => true
  internalAddItemOk := fun _ => true
  groupOrder := List.insertionSort keyLe

/-- The environment `sampleEnv` with a backend that returns groups in the order
they last occur in the table. -/
def storageOrderEnv : Env :=
  { sampleEnv with groupOrder := fun keys => keys }

/-- The environment `sampleEnv` with a backend that refuses its second statement. -/
def secondDeleteFailsEnv : Env :=
  { sampleEnv with executeQueryOk := fun k => k != 1 }

/-- A sell offer of 250 units of item 3031 by player 5. -/
def offer7 : OfferRow :=
  { id := 7, player_id := 5, sale := 1, itemtype := 3031, amount := 250, price := 40,
    created := 1000, anonymous := 0 }

/-- A store holding `offer7` only. -/
def db7 : Database :=
  { market_offers := [offer7], market_history := [], tasks := [], nextId := 8, executed := 0 }

/-- Offer 1 and offer 65537, created in the same second by different players. -/
def dbCollide : Database :=
  { market_offers := [
      { id := 1, player_id := 5, sale := 1, itemtype := 3031, amount := 10, price := 40,
        created := 1000, anonymous := 0 },
      { id := 65537, player_id := 6, sale := 0, itemtype := 3043, amount := 2, price := 900,
        created := 1000, anonymous := 0 }],
    market_history := [], tasks := [], nextId := 65538, executed := 65537 }

/-- A store whose only offer was created at second 2^31. -/
def dbLate : Database :=
  { market_offers := [
      { id := 9, player_id := 5, sale := 1, itemtype := 3031, amount := 10, price := 40,
        created := 2147483648, anonymous := 0 }],
    market_history := [], tasks := [], nextId := 10, executed := 9 }

/-- A history with an `AcceptedEx` row of player 5 among rows of other states. -/
def dbHistory : Database :=
  { market_offers := [], tasks := [], nextId := 1, executed := 0,
    market_history := [
      { player_id := 5, sale := 0, itemtype := 3031, amount := 1, price := 10,
        expires_at := 100, inserted := 100, state := 255 },
      { player_id := 6, sale := 0, itemtype := 3031, amount := 1, price := 20,
        expires_at := 110, inserted := 110, state := 3 },
      { player_id := 5, sale := 0, itemtype := 3043, amount := 4, price := 30,
        expires_at := 120, inserted := 120, state := 2 }] }

/-- The world whose store is `db7`, with no calls made yet and empty balances. -/
def game7 : Game :=
  { db := db7, bankBalance := fun _ => 0, addItemCalls := 0, log := [] }

/-- The environment `sampleEnv` in which no player can be loaded. -/
def loadFailsEnv : Env :=
  { sampleEnv with loadPlayerById := fun _ => false }

/-- A buy offer of player 5: 3 units of item 3043 at 900 each. -/
def offer8 : OfferRow :=
  { id := 8, player_id := 5, sale := 0, itemtype := 3043, amount := 3, price := 900,
    created := 1500, anonymous := 0 }

/-- The world whose store holds the buy offer 8, then the sell offer 7. -/
def game87 : Game :=
  { db := { market_offers := [offer8, offer7], market_history := [], tasks := [], nextId := 9,
            executed := 0 },
    bankBalance := fun _ => 0, addItemCalls := 0, log := [] }

/-- The world whose store holds the buy offer 8 only. -/
def game8 : Game :=
  { db := { market_offers := [offer8], market_history := [], tasks := [], nextId := 9,
            executed := 0 },
    bankBalance := fun _ => 0, addItemCalls := 0, log := [] }

/-- A history with three accepted purchases of item 3031 at 10, 20 and 30, an
expired one, and an accepted sale of the same item. -/
def dbStats : Database :=
  { market_offers := [], tasks := [], nextId := 1, executed := 0,
    market_history := [
      { player_id := 5, sale := 0, itemtype := 3031, amount := 1, price := 20,
        expires_at := 100, inserted := 100, state := 3 },
      { player_id := 6, sale := 0, itemtype := 3031, amount := 1, price := 10,
        expires_at := 110, inserted := 110, state := 3 },
      { player_id := 6, sale := 0, itemtype := 3031, amount := 1, price := 5,
        expires_at := 115, inserted := 115, state := 2 },
      { player_id := 7, sale := 1, itemtype := 3031, amount := 2, price := 70,
        expires_at := 117, inserted := 117, state := 3 },
      { player_id := 5, sale := 0, itemtype := 3031, amount := 4, price := 30,
        expires_at := 120, inserted := 120, state := 3 }] }

/-- Statistics maps with no entry but a stale purchase entry for item 3043. -/
def staleStatistics : Statistics :=
  { purchaseStatistics := fun i =>
      if i = 3043 then some { numTransactions := 1, highestPrice := 9, totalPrice := 9,
                              lowestPrice := 9 } else none,
    saleStatistics := fun _ => none }

/-- A history with an accepted row of action 2 and one of action 1 for item 3031. -/
def dbTwoSales : Database :=
  { market_offers := [], tasks := [], nextId := 1, executed := 0,
    market_history := [
      { player_id := 5, sale := 2, itemtype := 3031, amount := 1, price := 5,
        expires_at := 100, inserted := 100, state := 3 },
      { player_id := 6, sale := 1, itemtype := 3031, amount := 1, price := 7,
        expires_at := 110, inserted := 110, state := 3 }] }

/-- A history of `n` accepted purchases of item 3031 at price 10. -/
def manyAccepted (n : Nat) : Database :=
  { market_offers := [], tasks := [], nextId := 1, executed := 0,
    market_history := List.replicate n
      { player_id := 5, sale := 0, itemtype := 3031, amount := 1, price := 10,
        expires_at := 100, inserted := 100, state := 3 } }

/-- Statistics maps with no entry. -/
def emptyStatistics : Statistics :=
  { purchaseStatistics := fun _ => none, saleStatistics := fun _ => none }

/-! ## Theorems -/

theorem find?_id_eq_none {l : List OfferRow} {x : Nat} :
    l.find? (fun r => r.id == x) = none ↔ ∀ r ∈ l, r.id ≠ x := by
  simp [List.find?_eq_none]

theorem moveOfferToHistory_of_false (env : Env) (now : Nat) (db : Database)
    (offerId state : Nat) (h : (moveOfferToHistory env now db offerId state).1 = false) :
    (moveOfferToHistory env now db offerId state).2.tasks = db.tasks ∧
    (moveOfferToHistory env now db offerId state).2.market_history = db.market_history ∧
    (moveOfferToHistory env now db offerId state).2.market_offers = db.market_offers := by
  unfold moveOfferToHistory at h ⊢
  cases hfind : db.market_offers.find? (fun r => r.id == offerId) with
  | none => simp
  | some result =>
    by_cases hok : env.executeQueryOk db.executed = true
    · simp [hfind, executeDelete, hok] at h
    · simp [executeDelete, hok]

/-- C1. `moveOfferToHistory` returns false exactly when no active offer has the
id or the delete statement reports failure, and then nothing is submitted to
the history and the offers are as before; when it returns true no active offer
has the id any more and exactly one history insert has been submitted, with the
player, action, item, amount and price read from the selected row, the given
state and `expires_at` equal to the clock at the call. -/
theorem moveOfferToHistory_contract (env : Env) (now : Nat) (db : Database)
    (offerId state : Nat) :
    ((moveOfferToHistory env now db offerId state).1 = false ↔
        ((∀ r ∈ db.market_offers, r.id ≠ offerId) ∨
          (executeDelete env db offerId).1 = false)) ∧
    ((moveOfferToHistory env now db offerId state).1 = false →
        (moveOfferToHistory env now db offerId state).2.tasks = db.tasks ∧
        (moveOfferToHistory env now db offerId state).2.market_history = db.market_history ∧
        (moveOfferToHistory env now db offerId state).2.market_offers = db.market_offers) ∧
    ((moveOfferToHistory env now db offerId state).1 = true →
        (∀ r ∈ (moveOfferToHistory env now db offerId state).2.market_offers, r.id ≠ offerId) ∧
        ∃ row, row ∈ db.market_offers ∧ row.id = offerId ∧
          db.market_offers.find? (fun r => r.id == offerId) = some row ∧
          (moveOfferToHistory env now db offerId state).2.tasks =
            db.tasks ++ [DbTask.insertHistory
              { player_id := getU32 row.player_id, sale := getU16 row.sale,
                itemtype := getU16 row.itemtype, amount := getU16 row.amount,
                price := getU32 row.price, expires_at := now, inserted := now,
                state := state }]) := by
  unfold moveOfferToHistory
  cases hfind : db.market_offers.find? (fun r => r.id == offerId) with
  | none =>
    have hnone := find?_id_eq_none.mp hfind
    simp [hnone]
    exact Or.inl hnone
  | some result =>
    have hmem : result ∈ db.market_offers := List.mem_of_find?_eq_some hfind
    have hid : result.id = offerId := by
      have := List.find?_some hfind
      simpa using this
    have hex : ¬ ∀ r ∈ db.market_offers, r.id ≠ offerId := fun h => h result hmem hid
    by_cases hok : env.executeQueryOk db.executed = true
    · simp [executeDelete, hok, appendHistory, hex]
      exact ⟨result, hmem, hid, rfl, rfl, rfl, rfl, rfl, rfl⟩
    · simp [executeDelete, hok, hex]

/-- The function `moveOfferToHistory` is its three store operations in program order. -/
theorem runAlone_eq_moveOfferToHistory (env : Env) (now : Nat) (db : Database)
    (offerId state : Nat) :
    (runAlone env now offerId state 3 .start db).1.returned =
        some (moveOfferToHistory env now db offerId state).1 ∧
    (runAlone env now offerId state 3 .start db).2 =
        (moveOfferToHistory env now db offerId state).2 := by
  unfold moveOfferToHistory
  cases hfind : db.market_offers.find? (fun r => r.id == offerId) with
  | none => simp [runAlone, moveStep, hfind, MovePoint.returned]
  | some result =>
    by_cases hok : env.executeQueryOk db.executed = true
    · simp [runAlone, moveStep, hfind, MovePoint.returned, executeDelete, hok]
    · simp [runAlone, moveStep, hfind, MovePoint.returned, executeDelete, hok]

/-- C2, refuted as stated: with both selects issued before either delete, both
calls for offer 7 return true and two history inserts are submitted; and were
the second delete to report failure, the second call would return false at the
delete-failed exit, having found the row, not at the not-found exit. -/
theorem race_both_selects_first :
    ((runSchedule sampleEnv 7 2000 2 2000 2 [false, true, false, true, false, true]
        ⟨.start, .start, db7⟩).map
      (fun c => (c.first, c.second, (historyInserts c.db.tasks).length)))
      = some (.returnedTrue, .returnedTrue, 2) ∧
    raceOutcomeOk db7 (runSchedule sampleEnv 7 2000 2 2000 2
        [false, true, false, true, false, true] ⟨.start, .start, db7⟩) = false ∧
    ((runSchedule secondDeleteFailsEnv 7 2000 2 2000 2 [false, true, false, true, false]
        ⟨.start, .start, db7⟩).map
      (fun c => (c.first, c.second, (historyInserts c.db.tasks).length)))
      = some (.returnedTrue, .returnedDeleteFailed, 1) ∧
    raceOutcomeOk db7 (runSchedule secondDeleteFailsEnv 7 2000 2 2000 2
        [false, true, false, true, false] ⟨.start, .start, db7⟩) = false := by
  decide

theorem find?_after_delete (l : List OfferRow) (x : Nat) :
    (l.filter (fun r => r.id != x)).find? (fun r => r.id == x) = none := by
  simp [List.find?_eq_none]

theorem historyInserts_append (a b : List DbTask) :
    historyInserts (a ++ b) = historyInserts a ++ historyInserts b := by
  simp [historyInserts, List.filterMap_append]

/-- C2, amended: when one call issues its select and its delete before the other
call issues its select, and that delete succeeds, every schedule that lets both
calls return ends with exactly one history insert submitted, built from the
selected row; the call that moved first returns true and the other returns false
at the not-found exit. -/
theorem race_serialised (env : Env) (offerId now1 state1 now2 state2 : Nat) (db : Database)
    (who : Bool) (rest : List Bool) (c : Race)
    (hoffer : ∃ r ∈ db.market_offers, r.id = offerId)
    (hok : env.executeQueryOk db.executed = true)
    (hrun : runSchedule env offerId now1 state1 now2 state2 (who :: who :: rest)
      ⟨.start, .start, db⟩ = some c)
    (hdone : c.first.returned.isSome = true ∧ c.second.returned.isSome = true) :
    raceOutcomeOk db (some c) = true ∧
    (∃ row, db.market_offers.find? (fun r => r.id == offerId) = some row ∧
      c.db.tasks = db.tasks ++ [DbTask.insertHistory
        { player_id := getU32 row.player_id, sale := getU16 row.sale,
          itemtype := getU16 row.itemtype, amount := getU16 row.amount,
          price := getU32 row.price,
          expires_at := if who then now2 else now1,
          inserted := if who then now2 else now1,
          state := if who then state2 else state1 }]) ∧
    (who = false → c.first = .returnedTrue ∧ c.second = .returnedNotFound) ∧
    (who = true → c.first = .returnedNotFound ∧ c.second = .returnedTrue) := by
  cases hfind : db.market_offers.find? (fun r => r.id == offerId) with
  | none =>
    obtain ⟨r, hr, hid⟩ := hoffer
    exact absurd hid (find?_id_eq_none.mp hfind r hr)
  | some row =>
    obtain ⟨hd1, hd2⟩ := hdone
    obtain ⟨db1, hdel, hgone, htasks⟩ : ∃ db1, executeDelete env db offerId = (true, db1) ∧
        db1.market_offers.find? (fun r => r.id == offerId) = none ∧ db1.tasks = db.tasks :=
      ⟨{ db with market_offers := db.market_offers.filter (fun r => r.id != offerId),
                 executed := db.executed + 1 },
        by simp [executeDelete, hok], find?_after_delete _ _, rfl⟩
    cases who <;>
    rcases rest with _ | ⟨x, _ | ⟨y, _ | ⟨z, rest⟩⟩⟩ <;>
    (try cases x) <;> (try cases y) <;> (try cases z) <;>
    simp [runSchedule, raceStep, moveStep, hfind, hdel, hgone, appendHistory] at hrun <;>
    subst hrun <;>
    simp [MovePoint.returned] at hd1 hd2 <;>
    simp [raceOutcomeOk, historyInserts_append, historyInserts, htasks]

/-- Witness of `race_serialised`: offer 7, the first call running to its delete
before the second call starts. -/
theorem race_serialised_witness :
    raceOutcomeOk db7 (runSchedule sampleEnv 7 2000 2 2001 2 [false, false, true, false]
      ⟨.start, .start, db7⟩) = true :=
  have hrun : runSchedule sampleEnv 7 2000 2 2001 2 [false, false, true, false]
      ⟨.start, .start, db7⟩ = some ⟨.returnedTrue, .returnedNotFound,
        { db7 with market_offers := [], executed := 1, tasks := [DbTask.insertHistory
          { player_id := 5, sale := 1, itemtype := 3031, amount := 250, price := 40,
            expires_at := 2000, inserted := 2000, state := 2 }] }⟩ := by decide
  hrun ▸ (race_serialised sampleEnv 7 2000 2 2001 2 db7 false [true, false] _
    ⟨offer7, by decide, by decide⟩ (by decide) hrun (by decide)).1

theorem and_65535 (n : Nat) : n &&& 65535 = n % 65536 :=
  Nat.and_pow_two_sub_one_eq_mod n 16

theorem foldl_push_back {α β : Type} (f : α → β) (l : List α) (init : List β) :
    l.foldl (fun acc r => acc ++ [f r]) init = init ++ l.map f := by
  induction l generalizing init with
  | nil => simp
  | cons a t ih => simp [ih]

theorem find?_eq_some_of_unique {α : Type} (p : α → Bool) (l : List α) (o : α)
    (ho : o ∈ l) (hp : p o = true) (huniq : ∀ r ∈ l, p r = true → r = o) :
    l.find? p = some o := by
  induction l with
  | nil => simp at ho
  | cons a t ih =>
    by_cases hpa : p a = true
    · have := huniq a (List.mem_cons_self a t) hpa
      subst this
      simp [List.find?_cons, hpa]
    · have hne : o ≠ a := fun h => hpa (h ▸ hp)
      have hot : o ∈ t := by
        rcases List.mem_cons.mp ho with h | h
        · exact absurd h hne
        · exact h
      simp only [List.find?_cons, hpa]
      exact ih hot (fun r hr => huniq r (List.mem_cons_of_mem a hr))

theorem created_roundtrip (created : Nat) (d : Int) (h : created < 2147483648) :
    toInt32 (toU32 ((toU32 ((created : Int) + d) : Int) - d)) = (created : Int) := by
  unfold toInt32 toU32
  omega

/-- C4, refuted as stated: offers 1 and 65537 were created in the same second and
share the counter 1; the handle of offer 65537 resolves to offer 1, so the claim
does not hold for every active offer of this store.  And the handle of an offer
created at second 2^31 resolves to the not-found sentinel, the recomputed
creation time being negative as an `int32_t`. -/
theorem getOfferByCounter_collision :
    (getOfferByCounter sampleEnv dbCollide (toU32 (1000 + sampleEnv.MARKET_OFFER_DURATION))
        (65537 % 65536)).id = 1 ∧
    ¬ (∀ o ∈ dbCollide.market_offers,
        (getOfferByCounter sampleEnv dbCollide
          (toU32 ((o.created : Int) + sampleEnv.MARKET_OFFER_DURATION)) (o.id % 65536)).id
          = o.id) ∧
    (getOfferByCounter sampleEnv dbLate
        (toU32 (2147483648 + sampleEnv.MARKET_OFFER_DURATION)) (9 % 65536)).id = 0 := by
  decide

/-- C4, amended: for an active offer whose columns are in range and whose creation
time is below 2^31, `getOfferByCounter` at the handle (created + offerDuration as
a `uint32_t`, id mod 65536) returns an active offer with the same creation time
and the same id mod 65536, as the accessors read its row; and when no other
active offer shares both, it returns that offer: its id, action, item, amount,
price and player. -/
theorem getOfferByCounter_roundtrip (env : Env) (db : Database) (o : OfferRow)
    (ho : o ∈ db.market_offers) (hrange : o.InRange) (hcreated : o.created < 2147483648) :
    (∃ r ∈ db.market_offers, r.created = o.created ∧ r.id % 65536 = o.id % 65536 ∧
      getOfferByCounter env db (toU32 ((o.created : Int) + env.MARKET_OFFER_DURATION))
          (o.id % 65536) =
        { id := getU32 r.id, type := getU16 r.sale, amount := getU16 r.amount,
          counter := getU32 r.id &&& 0xFFFF, timestamp := getU32 r.created,
          price := getU32 r.price, itemId := getU16 r.itemtype,
          playerId := getU32 r.player_id,
          playerName := if getU16 r.anonymous == 0 then env.playerName r.player_id
            else "Anonymous" }) ∧
    ((∀ r ∈ db.market_offers,
        r.created = o.created → r.id % 65536 = o.id % 65536 → r = o) →
      getOfferByCounter env db (toU32 ((o.created : Int) + env.MARKET_OFFER_DURATION))
          (o.id % 65536) =
        { id := o.id, type := o.sale, amount := o.amount, counter := o.id % 65536,
          timestamp := o.created, price := o.price, itemId := o.itemtype,
          playerId := o.player_id,
          playerName := if o.anonymous = 0 then env.playerName o.player_id
            else "Anonymous" }) := by
  obtain ⟨h1, h2, h3, h4, h5, h6, h7, h8⟩ := hrange
  unfold getOfferByCounter
  simp only [created_roundtrip o.created env.MARKET_OFFER_DURATION hcreated]
  constructor
  · cases hfind : db.market_offers.find?
        (fun r => decide ((r.created : Int) = (o.created : Int)) &&
          (r.id &&& 65535) == o.id % 65536) with
    | none =>
      have hnone := List.find?_eq_none.mp hfind o ho
      simp [and_65535] at hnone
    | some r =>
      have hmem : r ∈ db.market_offers := List.mem_of_find?_eq_some hfind
      have hp := List.find?_some hfind
      simp [and_65535] at hp
      exact ⟨r, hmem, hp.1, hp.2, rfl⟩
  · intro huniq
    rw [find?_eq_some_of_unique _ db.market_offers o ho]
    · simp [getU32, getU16, and_65535, Nat.mod_eq_of_lt, h1, h2, h3, h4, h5, h6, h7, h8]
    · simp [and_65535]
    · intro r hr hp
      simp [and_65535] at hp
      exact huniq r hr hp.1 hp.2

/-- Witness of `getOfferByCounter_roundtrip`: offer 7 in the store that holds only it. -/
theorem getOfferByCounter_roundtrip_witness :
    getOfferByCounter sampleEnv db7 (toU32 ((offer7.created : Int) + sampleEnv.MARKET_OFFER_DURATION))
        (offer7.id % 65536) =
      { id := 7, type := 1, amount := 250, counter := 7, timestamp := 1000, price := 40,
        itemId := 3031, playerId := 5, playerName := "Seller" } :=
  (getOfferByCounter_roundtrip sampleEnv db7 offer7 (by decide) (by decide) (by decide)).2
    (by decide)

/-- C8. After a `createOffer` the backend carried out, for a 16-bit item id and
amount and a 32-bit price, `getOwnOffers` for the same action and player
contains the entry with that amount, price and item id, with the counter the
new id mod 65536 and the timestamp creation time plus offer duration (as the
`uint32_t` the entry holds); the new row carries the store's next id and the
clock reading. -/
theorem createOffer_getOwnOffers (env : Env) (now : Nat) (db : Database)
    (playerId action itemId amount price : Nat) (anonymous : Bool)
    (hok : env.executeQueryOk db.executed = true)
    (hitem : itemId < 65536) (hamount : amount < 65536) (hprice : price < 4294967296) :
    ({ id := db.nextId, player_id := playerId, sale := action, itemtype := itemId,
        amount := amount, price := price, created := now,
        anonymous := if anonymous then 1 else 0 } : OfferRow) ∈
      (createOffer env now db playerId action itemId amount price anonymous).market_offers ∧
    ({ amount := amount, price := price, itemId := itemId,
        counter := db.nextId % 65536,
        timestamp := toU32 ((now : Int) + env.MARKET_OFFER_DURATION),
        playerName := "" } : MarketOffer) ∈
      getOwnOffers env (createOffer env now db playerId action itemId amount price anonymous)
        action playerId := by
  have hts : toU32 ((getU32 now : Int) + env.MARKET_OFFER_DURATION) =
      toU32 ((now : Int) + env.MARKET_OFFER_DURATION) := by
    unfold toU32 getU32
    omega
  have hctr : getU32 db.nextId &&& 65535 = db.nextId % 65536 := by
    rw [and_65535]
    unfold getU32
    omega
  constructor
  · simp [createOffer, hok]
  · unfold getOwnOffers
    rw [foldl_push_back]
    simp only [List.nil_append, List.mem_map, List.mem_filter]
    refine ⟨OfferRow.mk db.nextId playerId action itemId amount price now
        (if anonymous then 1 else 0), ⟨?_, ?_⟩, ?_⟩
    · simp [createOffer, hok]
    · simp
    · simp only [ownOfferOfRow, hts, hctr]
      simp [getU16, getU32, Nat.mod_eq_of_lt, hitem, hamount, hprice]

/-- Witness of `createOffer_getOwnOffers`: player 5 offers 250 of item 3031 at
second 1000 in the store that holds offer 7. -/
theorem createOffer_getOwnOffers_witness :
    ({ amount := 250, price := 40, itemId := 3031, counter := 8, timestamp := 2593000,
        playerName := "" } : MarketOffer) ∈
      getOwnOffers sampleEnv (createOffer sampleEnv 1000 db7 5 1 3031 250 40 false) 1 5 :=
  (createOffer_getOwnOffers sampleEnv 1000 db7 5 1 3031 250 40 false
    (by decide) (by decide) (by decide) (by decide)).2

/-- C9. `getOwnHistory` returns one entry per history row of the player and
action, in row order, with the row's item, amount, price and `expires_at` as
read, and with the state Accepted where the row says AcceptedEx and the row's
state otherwise; no entry has state AcceptedEx, and the list is empty when no
row matches. -/
theorem getOwnHistory_normalised (env : Env) (db : Database) (action playerId : Nat)
    (hne : env.OFFERSTATE_ACCEPTED ≠ env.OFFERSTATE_ACCEPTEDEX) :
    getOwnHistory env db action playerId =
      (db.market_history.filter (fun r => r.player_id == playerId && r.sale == action)).map
        (fun r => { itemId := getU16 r.itemtype, amount := getU16 r.amount,
                    price := getU32 r.price, timestamp := getU32 r.expires_at,
                    state := if getU16 r.state = env.OFFERSTATE_ACCEPTEDEX
                      then env.OFFERSTATE_ACCEPTED else getU16 r.state }) ∧
    (∀ e ∈ getOwnHistory env db action playerId, e.state ≠ env.OFFERSTATE_ACCEPTEDEX) ∧
    ((∀ r ∈ db.market_history, ¬ (r.player_id = playerId ∧ r.sale = action)) →
      getOwnHistory env db action playerId = []) := by
  have hform : getOwnHistory env db action playerId =
      (db.market_history.filter (fun r => r.player_id == playerId && r.sale == action)).map
        (historyOfferOfRow env) := by
    unfold getOwnHistory
    rw [foldl_push_back]
    simp
  refine ⟨?_, ?_, ?_⟩
  · rw [hform]
    apply List.map_congr_left
    intro r _
    simp [historyOfferOfRow]
  · rw [hform]
    intro e he
    obtain ⟨r, _, rfl⟩ := List.mem_map.mp he
    simp only [historyOfferOfRow]
    by_cases h : getU16 r.state = env.OFFERSTATE_ACCEPTEDEX
    · simpa [h] using hne
    · simp [h]
  · intro hnone
    rw [hform]
    have : db.market_history.filter (fun r => r.player_id == playerId && r.sale == action) = [] := by
      rw [List.filter_eq_nil_iff]
      intro r hr
      have := hnone r hr
      simpa using this
    simp [this]

/-- Witness of `getOwnHistory_normalised`: the AcceptedEx row of player 5 is
returned as Accepted, before the player's Expired row. -/
theorem getOwnHistory_normalised_witness :
    getOwnHistory sampleEnv dbHistory 0 5 =
      [{ itemId := 3031, amount := 1, price := 10, timestamp := 100, state := 3 },
       { itemId := 3043, amount := 4, price := 30, timestamp := 120, state := 2 }] :=
  (getOwnHistory_normalised sampleEnv dbHistory 0 5 (by decide)).1.trans (by decide)

/-! ### The deposit loops -/

theorem depositCalls_append (a b : List Event) :
    depositCalls (a ++ b) = depositCalls a ++ depositCalls b := by
  simp [depositCalls, List.filterMap_append]

theorem depositCalls_map (p i : Nat) (calls : List (Nat × Bool)) :
    depositCalls (calls.map (fun c => Event.internalAddItem p i c.1 c.2)) = calls := by
  induction calls with
  | nil => rfl
  | cons c t ih =>
    simp only [List.map_cons, depositCalls, List.filterMap_cons] at ih ⊢
    rw [ih]

/-- The stackable loop: the store and the balances are untouched, and the log grows
by deposit calls that follow the chunking rule. -/
theorem depositStackable_spec (env : Env) (p i : Nat) (n : Nat) (g : Game) :
    ∃ calls : List (Nat × Bool), Chunked n calls ∧
      (depositStackable env p i n g).log =
        g.log ++ calls.map (fun c => Event.internalAddItem p i c.1 c.2) ∧
      (depositStackable env p i n g).db = g.db ∧
      (depositStackable env p i n g).bankBalance = g.bankBalance := by
  induction n using Nat.strong_induction_on generalizing g with
  | _ n ih =>
    rw [depositStackable]
    by_cases hn : n > 0
    · simp only [hn, ↓reduceIte, internalAddItem]
      cases hok : env.internalAddItemOk g.addItemCalls with
      | false =>
        refine ⟨[(min 100 n, false)], ?_, ?_, rfl, rfl⟩
        · simp [Chunked, hn]
        · simp
      | true =>
        have hlt : n - min 100 n < n := by
          have : 0 < min 100 n := Nat.lt_min.mpr ⟨by decide, hn⟩
          omega
        obtain ⟨calls, hc, hlog, hdb, hbank⟩ := ih (n - min 100 n) hlt
          { g with addItemCalls := g.addItemCalls + 1,
                   log := g.log ++ [Event.internalAddItem p i (min 100 n) true] }
        refine ⟨(min 100 n, true) :: calls, ?_, ?_, ?_, ?_⟩
        · simp [Chunked, hn, hc]
        · simp [hlog]
        · simp [hdb]
        · simp [hbank]
    · refine ⟨[], ?_, ?_, ?_, ?_⟩
      · simp only [Chunked]; omega
      · simp [hn]
      · simp [hn]
      · simp [hn]

theorem chunked_sizes (n : Nat) (calls : List (Nat × Bool)) (h : Chunked n calls) :
    ∀ c ∈ calls, 1 ≤ c.1 ∧ c.1 ≤ 100 := by
  induction calls generalizing n with
  | nil => simp
  | cons c t ih =>
    obtain ⟨size, accepted⟩ := c
    obtain ⟨hpos, hsize, hrest⟩ := h
    intro d hd
    rcases List.mem_cons.mp hd with heq | hmem
    · subst heq
      simp only [hsize]
      constructor
      · exact Nat.lt_min.mpr ⟨by decide, hpos⟩
      · exact Nat.min_le_left _ _
    · cases accepted with
      | true => exact ih _ (by simpa using hrest) d hmem
      | false =>
        have : t = [] := by simpa using hrest
        simp [this] at hmem

theorem chunked_all_accepted (n : Nat) (calls : List (Nat × Bool)) (h : Chunked n calls)
    (hall : ∀ c ∈ calls, c.2 = true) :
    calls.length = (n + 99) / 100 ∧ (calls.map Prod.fst).sum = n := by
  induction calls generalizing n with
  | nil =>
    have : n = 0 := h
    simp [this]
  | cons c t ih =>
    obtain ⟨size, accepted⟩ := c
    obtain ⟨hpos, hsize, hrest⟩ := h
    have hacc : accepted = true := hall (size, accepted) (List.mem_cons_self _ _)
    subst hacc
    have hrest1 : Chunked (n - size) t := by simpa using hrest
    obtain ⟨hlen, hsum⟩ := ih _ hrest1 (fun c hc => hall c (List.mem_cons_of_mem _ hc))
    simp only [List.length_cons, List.map_cons, List.sum_cons, hlen, hsum]
    have hmin : size ≤ n := hsize ▸ Nat.min_le_right _ _
    have hcases : (n ≤ 100 ∧ size = n) ∨ (100 < n ∧ size = 100) := by
      rcases Nat.le_total n 100 with h1 | h1
      · left; exact ⟨h1, by rw [hsize]; exact Nat.min_eq_right h1⟩
      · rcases Nat.eq_or_lt_of_le h1 with h2 | h2
        · left; exact ⟨by omega, by rw [hsize, ← h2]; rfl⟩
        · right; exact ⟨h2, by rw [hsize]; exact Nat.min_eq_left h1⟩
    omega

/-! ### The loop body of `processExpiredOffers` -/

theorem processRow_of_moved (env : Env) (now : Nat) (g : Game) (r : OfferRow)
    (h : (moveOfferToHistory env now g.db (getU32 r.id) env.OFFERSTATE_EXPIRED).1 = true) :
    processRow env now g r =
      settle env { g with db :=
        (moveOfferToHistory env now g.db (getU32 r.id) env.OFFERSTATE_EXPIRED).2 } r := by
  unfold processRow
  rcases hm : moveOfferToHistory env now g.db (getU32 r.id) env.OFFERSTATE_EXPIRED with ⟨b, db1⟩
  rw [hm] at h
  simp only at h
  subst h
  rfl

theorem processRow_of_not_moved (env : Env) (now : Nat) (g : Game) (r : OfferRow)
    (h : (moveOfferToHistory env now g.db (getU32 r.id) env.OFFERSTATE_EXPIRED).1 = false) :
    processRow env now g r =
      { g with db :=
        (moveOfferToHistory env now g.db (getU32 r.id) env.OFFERSTATE_EXPIRED).2 } := by
  unfold processRow
  rcases hm : moveOfferToHistory env now g.db (getU32 r.id) env.OFFERSTATE_EXPIRED with ⟨b, db1⟩
  rw [hm] at h
  simp only at h
  subst h
  rfl

/-- The deposit calls of the settlement of a stackable sell offer whose item type is
known and whose owner is resident or loads follow the chunking rule. -/
theorem settle_stackable_calls (env : Env) (g : Game) (r : OfferRow)
    (hsell : getU16 r.sale = 1)
    (hitem : (env.items (getU16 r.itemtype)).id ≠ 0)
    (hstack : (env.items (getU16 r.itemtype)).stackable = true)
    (hplayer : env.getPlayerByGUID (getU32 r.player_id) = true ∨
      env.loadPlayerById (getU32 r.player_id) = true) :
    Chunked (getU16 r.amount) (depositCalls ((settle env g r).log.drop g.log.length)) := by
  unfold settle
  simp only [hsell, beq_self_eq_true, ↓reduceIte, beq_iff_eq, hitem, depositItems, hstack]
  by_cases hres : env.getPlayerByGUID (getU32 r.player_id) = true
  · simp only [hres, ↓reduceIte]
    obtain ⟨calls, hc, hlog, -, -⟩ := depositStackable_spec env (getU32 r.player_id)
      (env.items (getU16 r.itemtype)).id (getU16 r.amount) g
    rw [hlog, List.drop_left, depositCalls_map]
    exact hc
  · have hload : env.loadPlayerById (getU32 r.player_id) = true := by
      rcases hplayer with h | h
      · exact absurd h hres
      · exact h
    have hres1 : env.getPlayerByGUID (getU32 r.player_id) = false := by simpa using hres
    simp only [hres1, hload, ↓reduceIte, Bool.false_eq_true]
    obtain ⟨calls, hc, hlog, -, -⟩ := depositStackable_spec env (getU32 r.player_id)
      (env.items (getU16 r.itemtype)).id (getU16 r.amount)
      { g with log := g.log ++ [Event.loadPlayerById (getU32 r.player_id) true] }
    simp only [hlog, List.append_assoc, List.drop_left]
    rw [depositCalls_append, depositCalls_append, depositCalls_map]
    simpa [depositCalls] using hc

/-- C3, refuted as stated: the stackable sell offer 7 of 250 units is archived, but
its owner is not resident and cannot be loaded, so no deposit call is made: no
call is rejected and yet there are not three calls, and the calls end with 250
units remaining. -/
theorem stackable_no_deposit_when_load_fails :
    (moveOfferToHistory loadFailsEnv 5000 game7.db (getU32 offer7.id)
        loadFailsEnv.OFFERSTATE_EXPIRED).1 = true ∧
    (loadFailsEnv.items (getU16 offer7.itemtype)).stackable = true ∧
    getU16 offer7.sale = 1 ∧ getU16 offer7.amount = 250 ∧
    depositCalls ((processRow loadFailsEnv 5000 game7 offer7).log.drop game7.log.length) = [] ∧
    (depositCalls ((processRow loadFailsEnv 5000 game7 offer7).log.drop
      game7.log.length)).length ≠ (250 + 99) / 100 ∧
    ¬ Chunked 250
      (depositCalls ((processRow loadFailsEnv 5000 game7 offer7).log.drop game7.log.length)) := by
  have h : depositCalls
      ((processRow loadFailsEnv 5000 game7 offer7).log.drop game7.log.length) = [] := by decide
  refine ⟨by decide, by decide, by decide, by decide, h, ?_, ?_⟩
  · rw [h]; decide
  · rw [h]
    simp [Chunked]

/-- The settlement of a sell offer of known item type whose owner is not resident and
does not load makes no deposit call. -/
theorem settle_no_player_calls (env : Env) (g : Game) (r : OfferRow)
    (hsell : getU16 r.sale = 1)
    (hitem : (env.items (getU16 r.itemtype)).id ≠ 0)
    (hres : env.getPlayerByGUID (getU32 r.player_id) = false)
    (hload : env.loadPlayerById (getU32 r.player_id) = false) :
    depositCalls ((settle env g r).log.drop g.log.length) = [] := by
  unfold settle
  simp only [hsell, beq_self_eq_true, ↓reduceIte, beq_iff_eq, hitem, hres, hload,
    Bool.false_eq_true, List.drop_left]
  rfl

/-- C3, amended: for a row that `processExpiredOffers` has archived and that is a sell
offer of a stackable item of known type: when the owner is resident or loads,
the deposit calls follow the chunking rule for the row's amount `n` (sizes
`min(100, remaining)`, ending at `remaining = 0` or after the first rejected
call), every size is between 1 and 100, and when no call is rejected there are
`ceil(n/100)` calls whose sizes sum to `n`; when the owner is not resident and
does not load, no deposit call is made. -/
theorem stackable_deposit_chunks (env : Env) (now : Nat) (g : Game) (r : OfferRow)
    (hmoved : (moveOfferToHistory env now g.db (getU32 r.id) env.OFFERSTATE_EXPIRED).1 = true)
    (hsell : getU16 r.sale = 1)
    (hitem : (env.items (getU16 r.itemtype)).id ≠ 0)
    (hstack : (env.items (getU16 r.itemtype)).stackable = true) :
    ((env.getPlayerByGUID (getU32 r.player_id) = true ∨
        env.loadPlayerById (getU32 r.player_id) = true) →
      Chunked (getU16 r.amount)
        (depositCalls ((processRow env now g r).log.drop g.log.length)) ∧
      (∀ c ∈ depositCalls ((processRow env now g r).log.drop g.log.length),
        1 ≤ c.1 ∧ c.1 ≤ 100) ∧
      ((∀ c ∈ depositCalls ((processRow env now g r).log.drop g.log.length), c.2 = true) →
        (depositCalls ((processRow env now g r).log.drop g.log.length)).length =
            (getU16 r.amount + 99) / 100 ∧
        ((depositCalls ((processRow env now g r).log.drop g.log.length)).map Prod.fst).sum =
            getU16 r.amount)) ∧
    ((env.getPlayerByGUID (getU32 r.player_id) = false ∧
        env.loadPlayerById (getU32 r.player_id) = false) →
      depositCalls ((processRow env now g r).log.drop g.log.length) = []) := by
  constructor
  · intro hplayer
    have hc : Chunked (getU16 r.amount)
        (depositCalls ((processRow env now g r).log.drop g.log.length)) := by
      rw [processRow_of_moved env now g r hmoved]
      exact settle_stackable_calls env { g with db :=
        (moveOfferToHistory env now g.db (getU32 r.id) env.OFFERSTATE_EXPIRED).2 } r
        hsell hitem hstack hplayer
    exact ⟨hc, chunked_sizes _ _ hc, chunked_all_accepted _ _ hc⟩
  · rintro ⟨hres, hload⟩
    rw [processRow_of_moved env now g r hmoved]
    exact settle_no_player_calls env { g with db :=
      (moveOfferToHistory env now g.db (getU32 r.id) env.OFFERSTATE_EXPIRED).2 } r
      hsell hitem hres hload

/-- Witness of `stackable_deposit_chunks`: the 250 units of offer 7 are deposited
in three calls of sizes 100, 100 and 50. -/
theorem stackable_deposit_chunks_witness :
    depositCalls ((processRow sampleEnv 5000 game7 offer7).log.drop game7.log.length) =
        [(100, true), (100, true), (50, true)] ∧
    (depositCalls ((processRow sampleEnv 5000 game7 offer7).log.drop game7.log.length)).length =
        (250 + 99) / 100 ∧
    ((depositCalls ((processRow sampleEnv 5000 game7 offer7).log.drop
        game7.log.length)).map Prod.fst).sum = 250 := by
  have hcalls : depositCalls
      ((processRow sampleEnv 5000 game7 offer7).log.drop game7.log.length) =
        [(100, true), (100, true), (50, true)] := by
    simp [processRow, moveOfferToHistory, game7, db7, offer7, sampleEnv, executeDelete, settle,
      getU16, getU32, depositItems, depositStackable, internalAddItem, depositCalls,
      appendHistory]
  have h := ((stackable_deposit_chunks sampleEnv 5000 game7 offer7 (by decide) (by decide)
    (by decide) (by decide)).1 (Or.inr (by decide))).2.2
    (by rw [hcalls]; decide)
  exact ⟨hcalls, h⟩

theorem price_times_amount_lt (price amount : Nat) (hprice : price < 4294967296) :
    price * getU16 amount < 18446744073709551616 := by
  have ha : getU16 amount < 65536 := Nat.mod_lt _ (by decide)
  calc price * getU16 amount < 4294967296 * 65536 := Nat.mul_lt_mul'' hprice ha
    _ ≤ 18446744073709551616 := by decide

/-- C6. For an archived row that is not a sell offer (the source takes its buy
branch when the sale column is not 1) and whose price fits 32 bits, the refund
is the exact product price × amount, below 2^64: a resident owner's bank
balance becomes the old balance plus the refund (as `uint64_t`) and nothing else
changes; otherwise the refund is passed to `increaseBankBalance` for the owner;
no deposit call is made. -/
theorem buy_offer_refund (env : Env) (now : Nat) (g : Game) (r : OfferRow)
    (hmoved : (moveOfferToHistory env now g.db (getU32 r.id) env.OFFERSTATE_EXPIRED).1 = true)
    (hbuy : getU16 r.sale ≠ 1) (hprice : r.price < 4294967296) :
    r.price * getU16 r.amount < 18446744073709551616 ∧
    (env.getPlayerByGUID (getU32 r.player_id) = true →
      (processRow env now g r).bankBalance (getU32 r.player_id) =
          (g.bankBalance (getU32 r.player_id) + r.price * getU16 r.amount)
            % 18446744073709551616 ∧
      (∀ p, p ≠ getU32 r.player_id →
          (processRow env now g r).bankBalance p = g.bankBalance p) ∧
      (processRow env now g r).log = g.log) ∧
    (env.getPlayerByGUID (getU32 r.player_id) = false →
      (processRow env now g r).log =
          g.log ++ [Event.increaseBankBalance (getU32 r.player_id)
            (r.price * getU16 r.amount)] ∧
      (processRow env now g r).bankBalance = g.bankBalance) ∧
    depositCalls ((processRow env now g r).log.drop g.log.length) = [] := by
  have hlt := price_times_amount_lt r.price r.amount hprice
  have htotal : getU64 r.price * getU16 r.amount % 18446744073709551616 =
      r.price * getU16 r.amount := by
    have : getU64 r.price = r.price := Nat.mod_eq_of_lt (by omega)
    rw [this]
    exact Nat.mod_eq_of_lt hlt
  rw [processRow_of_moved env now g r hmoved]
  unfold settle
  simp only [beq_iff_eq, hbuy, ↓reduceIte, htotal]
  refine ⟨hlt, ?_, ?_, ?_⟩
  · intro hres
    simp only [hres, ↓reduceIte, true_and]
    exact ⟨fun p hp => by simp [hp], trivial⟩
  · intro hres
    simp [hres]
  · cases hres : env.getPlayerByGUID (getU32 r.player_id) <;> simp [depositCalls]

/-- Witness of `buy_offer_refund`: the owner of the buy offer 8 is not resident and
2700 is passed to `increaseBankBalance`. -/
theorem buy_offer_refund_witness :
    (processRow sampleEnv 5000 game87 offer8).log = [Event.increaseBankBalance 5 2700] :=
  ((buy_offer_refund sampleEnv 5000 game87 offer8 (by decide) (by decide)
    (by decide)).2.2.1 (by decide)).1

/-- C10. The loop of `processExpiredOffers` handles each row once, in order, and goes
on to the later rows whatever the row did; a row whose move to history returns
false leaves the log of collaborator calls, the balances, the deposit counter,
the submitted statements and the offers as they were; and a row is settled, by
one run of the settlement, exactly when its move returned true. -/
theorem failed_move_skips_settlement (env : Env) (now : Nat) (g : Game)
    (before : List OfferRow) (r : OfferRow) (later : List OfferRow) :
    processExpiredOffers env now g (before ++ r :: later) =
      processExpiredOffers env now
        (processRow env now (processExpiredOffers env now g before) r) later ∧
    ((moveOfferToHistory env now g.db (getU32 r.id) env.OFFERSTATE_EXPIRED).1 = false →
      (processRow env now g r).log = g.log ∧
      (processRow env now g r).bankBalance = g.bankBalance ∧
      (processRow env now g r).addItemCalls = g.addItemCalls ∧
      (processRow env now g r).db.tasks = g.db.tasks ∧
      (processRow env now g r).db.market_offers = g.db.market_offers) ∧
    ((moveOfferToHistory env now g.db (getU32 r.id) env.OFFERSTATE_EXPIRED).1 = true →
      processRow env now g r =
        settle env { g with db :=
          (moveOfferToHistory env now g.db (getU32 r.id) env.OFFERSTATE_EXPIRED).2 } r) := by
  refine ⟨?_, ?_, processRow_of_moved env now g r⟩
  · simp [processExpiredOffers, List.foldl_append]
  · intro hfail
    have hc := moveOfferToHistory_of_false env now g.db (getU32 r.id)
      env.OFFERSTATE_EXPIRED hfail
    rw [processRow_of_not_moved env now g r hfail]
    exact ⟨rfl, rfl, rfl, hc.1, hc.2.2⟩

/-- An instance of `failed_move_skips_settlement`: offer 7 is no longer in the store,
its row is skipped, and the later row of offer 8 is settled. -/
theorem failed_move_skips_settlement_witness :
    (moveOfferToHistory sampleEnv 5000 game8.db (getU32 offer7.id)
        sampleEnv.OFFERSTATE_EXPIRED).1 = false ∧
    (processRow sampleEnv 5000 game8 offer7).log = game8.log ∧
    (processExpiredOffers sampleEnv 5000 game8 [offer7, offer8]).log =
        [Event.increaseBankBalance 5 2700] :=
  ⟨by decide,
   ((failed_move_skips_settlement sampleEnv 5000 game8 [] offer7 [offer8]).2.1 (by decide)).1,
   by decide⟩

/-! ### The sweep and the cutoff -/

theorem depositSingle_db (env : Env) (p i sub n : Nat) (g : Game) :
    (depositSingle env p i sub n g).db = g.db := by
  induction n generalizing g with
  | zero => rfl
  | succ n ih =>
    simp only [depositSingle, internalAddItem]
    cases env.internalAddItemOk g.addItemCalls with
    | false => rfl
    | true => simp [ih]

theorem depositItems_db (env : Env) (p : Nat) (t : ItemType) (n : Nat) (g : Game) :
    (depositItems env p t n g).db = g.db := by
  unfold depositItems
  split
  · exact (depositStackable_spec env p t.id n g).choose_spec.2.2.1
  · exact depositSingle_db env p t.id _ n g

theorem settle_db (env : Env) (g : Game) (r : OfferRow) : (settle env g r).db = g.db := by
  unfold settle
  simp only
  split
  · split
    · rfl
    · split
      · exact depositItems_db env _ _ _ g
      · split
        · simp [depositItems_db]
        · rfl
  · split <;> rfl

theorem processRow_db (env : Env) (now : Nat) (g : Game) (r : OfferRow) :
    (processRow env now g r).db =
      (moveOfferToHistory env now g.db (getU32 r.id) env.OFFERSTATE_EXPIRED).2 := by
  cases h : (moveOfferToHistory env now g.db (getU32 r.id) env.OFFERSTATE_EXPIRED).1 with
  | false => rw [processRow_of_not_moved env now g r h]
  | true => rw [processRow_of_moved env now g r h, settle_db]

theorem moveOfferToHistory_sweepInv (env : Env) (orig : List OfferRow) (cutoff : Int)
    (tasks0 : List DbTask) (now state : Nat) (db : Database) (r : OfferRow)
    (huniq : ∀ a ∈ orig, ∀ b ∈ orig, a.id = b.id → a = b)
    (hr : r ∈ orig) (hexp : (r.created : Int) ≤ cutoff)
    (hinv : SweepInv orig cutoff tasks0 now state db) :
    SweepInv orig cutoff tasks0 now state (moveOfferToHistory env now db r.id state).2 := by
  obtain ⟨hsub, hkeep, submitted, htasks, hsubmitted⟩ := hinv
  unfold moveOfferToHistory
  cases hfind : db.market_offers.find? (fun o => o.id == r.id) with
  | none => exact ⟨hsub, hkeep, submitted, htasks, hsubmitted⟩
  | some result =>
    have hmem : result ∈ db.market_offers := List.mem_of_find?_eq_some hfind
    have hid : result.id = r.id := by simpa using List.find?_some hfind
    have hres : result = r := huniq result (hsub result hmem) r hr hid
    by_cases hok : env.executeQueryOk db.executed = true
    · simp only [executeDelete, hok, ↓reduceIte, appendHistory]
      refine ⟨?_, ?_, submitted ++ [DbTask.insertHistory (historyRowOf r now state)], ?_, ?_⟩
      · intro o ho
        exact hsub o (List.mem_of_mem_filter ho)
      · rw [← hkeep, List.filter_filter]
        apply List.filter_congr
        intro o ho
        by_cases hoid : o.id = r.id
        · have : o = r := huniq o (hsub o ho) r hr hoid
          subst this
          simp
          omega
        · simp [hoid]
      · simp [htasks, hres, historyRowOf]
      · intro h hh
        rw [historyInserts_append] at hh
        rcases List.mem_append.mp hh with h1 | h1
        · exact hsubmitted h h1
        · have : h = historyRowOf r now state := by simpa [historyInserts] using h1
          exact ⟨r, hr, hexp, this⟩
    · simp only [executeDelete, hok]
      exact ⟨hsub, hkeep, submitted, htasks, hsubmitted⟩

theorem processExpiredOffers_sweepInv (env : Env) (orig : List OfferRow) (cutoff : Int)
    (tasks0 : List DbTask) (now : Nat) (rows : List OfferRow)
    (huniq : ∀ a ∈ orig, ∀ b ∈ orig, a.id = b.id → a = b)
    (hid : ∀ a ∈ orig, a.id < 4294967296)
    (hrows : ∀ r ∈ rows, r ∈ orig ∧ (r.created : Int) ≤ cutoff)
    (g : Game) (hinv : SweepInv orig cutoff tasks0 now env.OFFERSTATE_EXPIRED g.db) :
    SweepInv orig cutoff tasks0 now env.OFFERSTATE_EXPIRED
      (processExpiredOffers env now g rows).db := by
  induction rows generalizing g with
  | nil => exact hinv
  | cons r rest ih =>
    have hr := hrows r (List.mem_cons_self r rest)
    have hget : getU32 r.id = r.id := Nat.mod_eq_of_lt (hid r hr.1)
    simp only [processExpiredOffers, List.foldl_cons]
    apply ih (fun x hx => hrows x (List.mem_cons_of_mem r hx))
    rw [processRow_db, hget]
    exact moveOfferToHistory_sweepInv env orig cutoff tasks0 now env.OFFERSTATE_EXPIRED g.db r
      huniq hr.1 hr.2 hinv

theorem checkExpiredOffers_db (env : Env) (now : Nat) (g : Game) :
    (checkExpiredOffers env now g).db =
      { g.db with tasks := g.db.tasks ++ [DbTask.selectExpired (lastExpireDate env now)] } := by
  unfold checkExpiredOffers
  split <;> rfl

/-- C7. A sweep started by `checkExpiredOffers` at clock `now`, over a store whose
offer ids are unique and fit 32 bits, has cutoff `now - offerDuration`: the rows
it processes are active offers created at or before the cutoff; the active
offers created after the cutoff are the same rows, in the same order, when the
sweep has finished; an offer that is gone after the sweep was created at or
before the cutoff; and every history insert the sweep submits is the row of
such an offer, with state Expired. -/
theorem sweep_respects_cutoff (env : Env) (now later : Nat) (g : Game)
    (huniq : ∀ a ∈ g.db.market_offers, ∀ b ∈ g.db.market_offers, a.id = b.id → a = b)
    (hid : ∀ a ∈ g.db.market_offers, a.id < 4294967296) :
    (∀ r ∈ selectExpired (checkExpiredOffers env now g).db (lastExpireDate env now),
      r ∈ g.db.market_offers ∧ (r.created : Int) ≤ (now : Int) - env.MARKET_OFFER_DURATION) ∧
    (expirySweep env now later g).db.market_offers.filter
        (fun r => decide ((now : Int) - env.MARKET_OFFER_DURATION < (r.created : Int))) =
      g.db.market_offers.filter
        (fun r => decide ((now : Int) - env.MARKET_OFFER_DURATION < (r.created : Int))) ∧
    (∀ o ∈ g.db.market_offers, o ∉ (expirySweep env now later g).db.market_offers →
      (o.created : Int) ≤ (now : Int) - env.MARKET_OFFER_DURATION) ∧
    (∀ h ∈ historyInserts ((expirySweep env now later g).db.tasks.drop g.db.tasks.length),
      ∃ o ∈ g.db.market_offers, (o.created : Int) ≤ (now : Int) - env.MARKET_OFFER_DURATION ∧
        h = historyRowOf o later env.OFFERSTATE_EXPIRED) := by
  have hrows : ∀ r ∈ selectExpired (checkExpiredOffers env now g).db (lastExpireDate env now),
      r ∈ g.db.market_offers ∧ (r.created : Int) ≤ (now : Int) - env.MARKET_OFFER_DURATION := by
    intro r hr
    simp only [selectExpired, checkExpiredOffers_db, List.mem_filter, decide_eq_true_eq,
      lastExpireDate] at hr
    exact hr
  have hstart : SweepInv g.db.market_offers ((now : Int) - env.MARKET_OFFER_DURATION)
      (checkExpiredOffers env now g).db.tasks later env.OFFERSTATE_EXPIRED
      (checkExpiredOffers env now g).db := by
    refine ⟨?_, ?_, [], by simp, by simp [historyInserts]⟩
    · intro o ho
      simpa [checkExpiredOffers_db] using ho
    · simp [checkExpiredOffers_db]
  obtain ⟨hsub, hkeep, submitted, htasks, hsubmitted⟩ :=
    processExpiredOffers_sweepInv env g.db.market_offers
      ((now : Int) - env.MARKET_OFFER_DURATION) (checkExpiredOffers env now g).db.tasks later
      (selectExpired (checkExpiredOffers env now g).db (lastExpireDate env now))
      huniq hid hrows (checkExpiredOffers env now g) hstart
  refine ⟨hrows, hkeep, ?_, ?_⟩
  · intro o ho hgone
    by_contra hlate
    have hmem : o ∈ g.db.market_offers.filter
        (fun r => decide ((now : Int) - env.MARKET_OFFER_DURATION < (r.created : Int))) := by
      simp only [List.mem_filter, decide_eq_true_eq]
      exact ⟨ho, by omega⟩
    rw [← hkeep] at hmem
    exact hgone (List.mem_of_mem_filter hmem)
  · intro h hh
    have htasks1 : (expirySweep env now later g).db.tasks =
        g.db.tasks ++ (DbTask.selectExpired (lastExpireDate env now) :: submitted) := by
      show (processExpiredOffers env later (checkExpiredOffers env now g) _).db.tasks = _
      rw [htasks, checkExpiredOffers_db]
      simp
    rw [htasks1, List.drop_left] at hh
    have hin : h ∈ historyInserts submitted := by
      simpa [historyInserts] using hh
    exact hsubmitted h hin

/-- Witness of `sweep_respects_cutoff`: at second 2593200 the cutoff is 1200; offer 8,
created at 1500, is still there after the sweep, and the one history insert
submitted is the row of offer 7, created at 1000. -/
theorem sweep_respects_cutoff_witness :
    (expirySweep sampleEnv 2593200 2593300 game87).db.market_offers.filter
        (fun r => decide ((2593200 : Int) - 2592000 < (r.created : Int))) = [offer8] ∧
    (∀ o ∈ game87.db.market_offers,
      o ∉ (expirySweep sampleEnv 2593200 2593300 game87).db.market_offers →
      (o.created : Int) ≤ 1200) :=
  ⟨(sweep_respects_cutoff sampleEnv 2593200 2593300 game87 (by decide) (by decide)).2.1.trans
      (by decide),
   (sweep_respects_cutoff sampleEnv 2593200 2593300 game87 (by decide) (by decide)).2.2.1⟩

/-! ### Statistics -/

theorem foldl_min_spec (ps : List Nat) (p : Nat) :
    ps.foldl min p ∈ p :: ps ∧ ∀ q ∈ p :: ps, ps.foldl min p ≤ q := by
  induction ps generalizing p with
  | nil => simp
  | cons a t ih =>
    obtain ⟨hmem, hle⟩ := ih (min p a)
    simp only [List.foldl_cons]
    constructor
    · rcases List.mem_cons.mp hmem with h | h
      · rw [h]
        rcases Nat.le_total p a with hpa | hpa
        · simp [Nat.min_eq_left hpa]
        · simp [Nat.min_eq_right hpa]
      · exact List.mem_cons_of_mem _ (List.mem_cons_of_mem _ h)
    · intro q hq
      have h0 := hle (min p a) (List.mem_cons_self _ _)
      rcases List.mem_cons.mp hq with h | h
      · rw [h]; exact Nat.le_trans h0 (Nat.min_le_left _ _)
      · rcases List.mem_cons.mp h with h1 | h1
        · rw [h1]; exact Nat.le_trans h0 (Nat.min_le_right _ _)
        · exact hle q (List.mem_cons_of_mem _ h1)

theorem foldl_max_spec (ps : List Nat) (p : Nat) :
    ps.foldl max p ∈ p :: ps ∧ ∀ q ∈ p :: ps, q ≤ ps.foldl max p := by
  induction ps generalizing p with
  | nil => simp
  | cons a t ih =>
    obtain ⟨hmem, hle⟩ := ih (max p a)
    simp only [List.foldl_cons]
    constructor
    · rcases List.mem_cons.mp hmem with h | h
      · rw [h]
        rcases Nat.le_total p a with hpa | hpa
        · simp [Nat.max_eq_right hpa]
        · simp [Nat.max_eq_left hpa]
      · exact List.mem_cons_of_mem _ (List.mem_cons_of_mem _ h)
    · intro q hq
      have h0 := hle (max p a) (List.mem_cons_self _ _)
      rcases List.mem_cons.mp hq with h | h
      · rw [h]; exact Nat.le_trans (Nat.le_max_left _ _) h0
      · rcases List.mem_cons.mp h with h1 | h1
        · rw [h1]; exact Nat.le_trans (Nat.le_max_right _ _) h0
        · exact hle q (List.mem_cons_of_mem _ h1)

theorem minOf_spec (l : List Nat) (h : l ≠ []) : minOf l ∈ l ∧ ∀ q ∈ l, minOf l ≤ q := by
  cases l with
  | nil => exact absurd rfl h
  | cons p ps => exact foldl_min_spec ps p

theorem maxOf_spec (l : List Nat) (h : l ≠ []) : maxOf l ∈ l ∧ ∀ q ∈ l, q ≤ maxOf l := by
  cases l with
  | nil => exact absurd rfl h
  | cons p ps => exact foldl_max_spec ps p

theorem sum_le_length_mul (l : List Nat) (b : Nat) (h : ∀ p ∈ l, p ≤ b) :
    l.sum ≤ l.length * b := by
  induction l with
  | nil => simp
  | cons a t ih =>
    have h1 := h a (List.mem_cons_self _ _)
    have h2 := ih (fun p hp => h p (List.mem_cons_of_mem _ hp))
    simp only [List.sum_cons, List.length_cons, Nat.succ_mul]
    omega

/-- The entry one result row writes. -/
theorem statisticsOf_updateStatisticsRow (env : Env) (st : Statistics) (r : StatRow)
    (action itemId : Nat) :
    statisticsOf env (updateStatisticsRow env st r) action itemId =
      if (getU16 r.sale = env.MARKETACTION_BUY ↔ action = env.MARKETACTION_BUY) ∧
          itemId = getU16 r.itemtype then
        some { numTransactions := getU32 r.num, lowestPrice := getU32 r.min,
               totalPrice := getU64 r.sum, highestPrice := getU32 r.max }
      else statisticsOf env st action itemId := by
  unfold updateStatisticsRow statisticsOf getPurchaseStatistics getSaleStatistics setEntry
  by_cases hr : getU16 r.sale = env.MARKETACTION_BUY <;>
  by_cases ha : action = env.MARKETACTION_BUY <;>
  by_cases hi : itemId = getU16 r.itemtype <;>
  simp [hr, ha, hi]

/-- The loop of `updateStatistics` over result rows of which all that write the
entry of `action` and `itemId` write the same value. -/
theorem statisticsOf_foldl (env : Env) (action itemId : Nat) (v : MarketStatistics)
    (rows : List StatRow) (st : Statistics)
    (hsame : ∀ r ∈ rows,
      (getU16 r.sale = env.MARKETACTION_BUY ↔ action = env.MARKETACTION_BUY) →
      itemId = getU16 r.itemtype →
      ({ numTransactions := getU32 r.num, lowestPrice := getU32 r.min,
         totalPrice := getU64 r.sum, highestPrice := getU32 r.max } : MarketStatistics) = v) :
    statisticsOf env (rows.foldl (updateStatisticsRow env) st) action itemId =
      if ∃ r ∈ rows,
          (getU16 r.sale = env.MARKETACTION_BUY ↔ action = env.MARKETACTION_BUY) ∧
          itemId = getU16 r.itemtype then some v
      else statisticsOf env st action itemId := by
  induction rows generalizing st with
  | nil => simp
  | cons r rest ih =>
    simp only [List.foldl_cons]
    rw [ih _ (fun x hx => hsame x (List.mem_cons_of_mem _ hx)),
      statisticsOf_updateStatisticsRow]
    by_cases hrest : ∃ x ∈ rest,
        (getU16 x.sale = env.MARKETACTION_BUY ↔ action = env.MARKETACTION_BUY) ∧
        itemId = getU16 x.itemtype
    · have : ∃ x ∈ r :: rest,
          (getU16 x.sale = env.MARKETACTION_BUY ↔ action = env.MARKETACTION_BUY) ∧
          itemId = getU16 x.itemtype := by
        obtain ⟨x, hx, hh⟩ := hrest
        exact ⟨x, List.mem_cons_of_mem _ hx, hh⟩
      rw [if_pos hrest, if_pos this]
    · rw [if_neg hrest]
      by_cases hr : (getU16 r.sale = env.MARKETACTION_BUY ↔ action = env.MARKETACTION_BUY) ∧
          itemId = getU16 r.itemtype
      · have : ∃ x ∈ r :: rest,
            (getU16 x.sale = env.MARKETACTION_BUY ↔ action = env.MARKETACTION_BUY) ∧
            itemId = getU16 x.itemtype := ⟨r, List.mem_cons_self _ _, hr⟩
        rw [if_pos hr, if_pos this, hsame r (List.mem_cons_self _ _) hr.1 hr.2]
      · have : ¬ ∃ x ∈ r :: rest,
            (getU16 x.sale = env.MARKETACTION_BUY ↔ action = env.MARKETACTION_BUY) ∧
            itemId = getU16 x.itemtype := by
          rintro ⟨x, hx, hh⟩
          rcases List.mem_cons.mp hx with h | h
          · exact hr (h ▸ hh)
          · exact hrest ⟨x, h, hh⟩
        rw [if_neg hr, if_neg this]

theorem acceptedPrices_eq (env : Env) (db : Database) (itemId action : Nat) :
    acceptedPrices env db itemId action =
      ((db.market_history.filter (fun r => r.state == env.OFFERSTATE_ACCEPTED)).filter
        (fun r => r.itemtype == itemId && r.sale == action)).map (fun r => r.price) := by
  unfold acceptedPrices
  rw [List.filter_filter]
  congr 1
  apply List.filter_congr
  intro r _
  cases (r.state == env.OFFERSTATE_ACCEPTED) <;> cases (r.itemtype == itemId) <;>
    cases (r.sale == action) <;> rfl

theorem mem_selectStatistics (env : Env) (db : Database) (r : StatRow)
    (hperm : ∀ keys, (env.groupOrder keys).Perm keys) :
    r ∈ selectStatistics env db ↔
      ∃ h ∈ db.market_history, h.state = env.OFFERSTATE_ACCEPTED ∧
        r = groupRow (db.market_history.filter (fun r => r.state == env.OFFERSTATE_ACCEPTED))
          h.itemtype h.sale := by
  have hkeys : ∀ k, k ∈ env.groupOrder (groupKeys env db) ↔
      ∃ h ∈ db.market_history, h.state = env.OFFERSTATE_ACCEPTED ∧ (h.itemtype, h.sale) = k := by
    intro k
    rw [(hperm (groupKeys env db)).mem_iff]
    simp only [groupKeys, List.mem_dedup, List.mem_map, List.mem_filter, beq_iff_eq]
    constructor
    · rintro ⟨h, ⟨hh, hs⟩, rfl⟩
      exact ⟨h, hh, hs, rfl⟩
    · rintro ⟨h, hh, hs, rfl⟩
      exact ⟨h, ⟨hh, hs⟩, rfl⟩
  unfold selectStatistics
  simp only [List.mem_map]
  constructor
  · rintro ⟨k, hk, rfl⟩
    obtain ⟨h, hh, hs, rfl⟩ := (hkeys k).mp hk
    exact ⟨h, hh, hs, rfl⟩
  · rintro ⟨h, hh, hs, rfl⟩
    exact ⟨(h.itemtype, h.sale), (hkeys _).mpr ⟨h, hh, hs, rfl⟩, rfl⟩

theorem acceptedPrices_ne_nil_iff (env : Env) (db : Database) (itemId action : Nat) :
    acceptedPrices env db itemId action ≠ [] ↔
      ∃ h ∈ db.market_history, h.state = env.OFFERSTATE_ACCEPTED ∧ h.itemtype = itemId ∧
        h.sale = action := by
  unfold acceptedPrices
  rw [Ne, List.map_eq_nil_iff, List.filter_eq_nil_iff]
  simp only [Bool.and_eq_true, beq_iff_eq, not_forall]
  constructor
  · rintro ⟨h, hh, hp⟩
    have hp1 : h.state = env.OFFERSTATE_ACCEPTED ∧ h.itemtype = itemId ∧ h.sale = action := by
      simpa using hp
    exact ⟨h, hh, hp1.1, hp1.2.1, hp1.2.2⟩
  · rintro ⟨h, hh, h1, h2, h3⟩
    exact ⟨h, hh, by simp [h1, h2, h3]⟩

/-- The entry `updateStatistics` leaves for an item and action, over a history whose
columns are in range and whose actions are Buy and one other value, whatever
the order in which the backend returns the groups: the aggregates of the
accepted rows as the accessors read them, or the entry from before the call
when there is no accepted row. -/
theorem updateStatistics_entry (env : Env) (db : Database) (st : Statistics) (sell : Nat)
    (hperm : ∀ keys, (env.groupOrder keys).Perm keys)
    (hrange : ∀ r ∈ db.market_history, r.InRange)
    (hact : ∀ r ∈ db.market_history, r.sale = env.MARKETACTION_BUY ∨ r.sale = sell)
    (itemId action : Nat) (haction : action = env.MARKETACTION_BUY ∨ action = sell) :
    statisticsOf env (updateStatistics env db st) action itemId =
      if acceptedPrices env db itemId action ≠ [] then
        some { numTransactions := getU32 (acceptedPrices env db itemId action).length,
               lowestPrice := getU32 (minOf (acceptedPrices env db itemId action)),
               totalPrice := getU64 (acceptedPrices env db itemId action).sum,
               highestPrice := getU32 (maxOf (acceptedPrices env db itemId action)) }
      else statisticsOf env st action itemId := by
  -- every result row that writes the entry is the row of the group itself
  have hkey : ∀ r ∈ selectStatistics env db,
      (getU16 r.sale = env.MARKETACTION_BUY ↔ action = env.MARKETACTION_BUY) →
      itemId = getU16 r.itemtype →
      r = groupRow (db.market_history.filter (fun r => r.state == env.OFFERSTATE_ACCEPTED))
        itemId action ∧ acceptedPrices env db itemId action ≠ [] := by
    intro r hr hsale hitem
    obtain ⟨h, hh, hs, rfl⟩ := (mem_selectStatistics env db r hperm).mp hr
    obtain ⟨-, h2, h3, -, -, -⟩ := hrange h hh
    have e1 : getU16 h.sale = h.sale := Nat.mod_eq_of_lt h2
    have e2 : getU16 h.itemtype = h.itemtype := Nat.mod_eq_of_lt h3
    simp only [groupRow, e1, e2] at hsale hitem
    have hi : h.itemtype = itemId := hitem.symm
    have ha : h.sale = action := by
      rcases hact h hh with h4 | h4 <;> rcases haction with h5 | h5
      · rw [h4, h5]
      · exact hsale.mpr (hsale.mp h4)  |>.trans (hsale.mp h4).symm
      · exact (hsale.mpr h5).trans h5.symm
      · rw [h4, h5]
    rw [hi, ha]
    exact ⟨rfl, (acceptedPrices_ne_nil_iff env db itemId action).mpr ⟨h, hh, hs, hi, ha⟩⟩
  have hfold := statisticsOf_foldl env action itemId
    { numTransactions := getU32 (acceptedPrices env db itemId action).length,
      lowestPrice := getU32 (minOf (acceptedPrices env db itemId action)),
      totalPrice := getU64 (acceptedPrices env db itemId action).sum,
      highestPrice := getU32 (maxOf (acceptedPrices env db itemId action)) }
    (selectStatistics env db) st
    (by
      intro r hr hsale hitem
      rw [(hkey r hr hsale hitem).1, acceptedPrices_eq]
      simp [groupRow])
  show statisticsOf env ((selectStatistics env db).foldl (updateStatisticsRow env) st)
    action itemId = _
  rw [hfold]
  by_cases hne : acceptedPrices env db itemId action ≠ []
  · obtain ⟨h, hh, hs, hi, ha⟩ := (acceptedPrices_ne_nil_iff env db itemId action).mp hne
    obtain ⟨-, h2, h3, -, -, -⟩ := hrange h hh
    have e1 : getU16 h.sale = h.sale := Nat.mod_eq_of_lt h2
    have e2 : getU16 h.itemtype = h.itemtype := Nat.mod_eq_of_lt h3
    have hex : ∃ r ∈ selectStatistics env db,
        (getU16 r.sale = env.MARKETACTION_BUY ↔ action = env.MARKETACTION_BUY) ∧
        itemId = getU16 r.itemtype := by
      refine ⟨_, (mem_selectStatistics env db _ hperm).mpr ⟨h, hh, hs, rfl⟩, ?_, ?_⟩
      · show (getU16 h.sale = env.MARKETACTION_BUY ↔ action = env.MARKETACTION_BUY)
        rw [e1, ha]
      · show itemId = getU16 h.itemtype
        rw [e2, hi]
    rw [if_pos hex, if_pos hne]
  · have hnex : ¬ ∃ r ∈ selectStatistics env db,
        (getU16 r.sale = env.MARKETACTION_BUY ↔ action = env.MARKETACTION_BUY) ∧
        itemId = getU16 r.itemtype := by
      rintro ⟨r, hr, hsale, hitem⟩
      exact hne (hkey r hr hsale hitem).2
    rw [if_neg hnex, if_neg hne]

theorem sampleEnv_groupOrder_perm (keys : List (Nat × Nat)) :
    (sampleEnv.groupOrder keys).Perm keys :=
  List.perm_insertionSort keyLe keys

theorem acceptedPrices_manyAccepted (n : Nat) :
    acceptedPrices sampleEnv (manyAccepted n) 3031 0 = List.replicate n 10 := by
  unfold acceptedPrices manyAccepted
  rw [List.filter_replicate_of_pos (by decide), List.map_replicate]

/-- C5, refuted as stated.  A history with an accepted row of action 1 (price 7) and
one of action 2 (price 5) for item 3031 has one sale-map entry for both: with
the groups returned sorted, action 1 is left with the aggregates of action 2,
and with the groups returned in table order, action 2 is left with those of
action 1.  And a history of 2^32 accepted purchases of item 3031 leaves the
entry with `numTransactions = 0`, the count read as a `uint32_t`. -/
theorem updateStatistics_two_sale_actions :
    (acceptedPrices sampleEnv dbTwoSales 3031 1 = [7] ∧
      statisticsOf sampleEnv (updateStatistics sampleEnv dbTwoSales emptyStatistics) 1 3031 =
        some { numTransactions := 1, lowestPrice := 5, highestPrice := 5, totalPrice := 5 }) ∧
    (acceptedPrices storageOrderEnv dbTwoSales 3031 2 = [5] ∧
      statisticsOf storageOrderEnv
          (updateStatistics storageOrderEnv dbTwoSales emptyStatistics) 2 3031 =
        some { numTransactions := 1, lowestPrice := 7, highestPrice := 7, totalPrice := 7 }) ∧
    ((acceptedPrices sampleEnv (manyAccepted 4294967296) 3031 0).length = 4294967296 ∧
      (statisticsOf sampleEnv
          (updateStatistics sampleEnv (manyAccepted 4294967296) emptyStatistics) 0 3031).map
        (fun m => m.numTransactions) = some 0) := by
  refine ⟨by decide, by decide, ?_, ?_⟩
  · rw [acceptedPrices_manyAccepted, List.length_replicate]
  · have hne : acceptedPrices sampleEnv (manyAccepted 4294967296) 3031 0 ≠ [] := by
      intro h
      have h1 := congrArg List.length h
      rw [acceptedPrices_manyAccepted, List.length_replicate] at h1
      exact absurd h1 (by decide)
    rw [updateStatistics_entry sampleEnv (manyAccepted 4294967296) emptyStatistics 1
      sampleEnv_groupOrder_perm
      (fun r hr => by
        have : r = _ := List.eq_of_mem_replicate hr
        rw [this]; decide)
      (fun r hr => by
        have : r = _ := List.eq_of_mem_replicate hr
        rw [this]; decide)
      3031 0 (Or.inl rfl), if_pos hne]
    simp only [Option.map_some', acceptedPrices_manyAccepted, List.length_replicate]
    decide

/-- C5, amended: over a history whose columns are in range, whose actions are Buy
and one other value, and that has fewer than 2^32 rows, for every order in
which the backend returns the groups and every prior content of the two maps:
after `updateStatistics` the entry of an item and action with accepted history
rows (in the purchase map for Buy, in the sale map for the other action) has
the number of those rows, their least and greatest price and the sum of their
prices; the entry of an item and action with no accepted row is what it was
before the call. -/
theorem updateStatistics_aggregates (env : Env) (db : Database) (st : Statistics) (sell : Nat)
    (hperm : ∀ keys, (env.groupOrder keys).Perm keys)
    (hrange : ∀ r ∈ db.market_history, r.InRange)
    (hact : ∀ r ∈ db.market_history, r.sale = env.MARKETACTION_BUY ∨ r.sale = sell)
    (hlen : db.market_history.length < 4294967296)
    (itemId action : Nat) (haction : action = env.MARKETACTION_BUY ∨ action = sell) :
    (acceptedPrices env db itemId action ≠ [] →
      ∃ m, statisticsOf env (updateStatistics env db st) action itemId = some m ∧
        m.numTransactions = (acceptedPrices env db itemId action).length ∧
        m.lowestPrice ∈ acceptedPrices env db itemId action ∧
        (∀ p ∈ acceptedPrices env db itemId action, m.lowestPrice ≤ p) ∧
        m.highestPrice ∈ acceptedPrices env db itemId action ∧
        (∀ p ∈ acceptedPrices env db itemId action, p ≤ m.highestPrice) ∧
        m.totalPrice = (acceptedPrices env db itemId action).sum) ∧
    (acceptedPrices env db itemId action = [] →
      statisticsOf env (updateStatistics env db st) action itemId =
        statisticsOf env st action itemId) := by
  have hentry := updateStatistics_entry env db st sell hperm hrange hact itemId action haction
  constructor
  · intro hne
    have hbound : ∀ p ∈ acceptedPrices env db itemId action, p < 4294967296 := by
      intro p hp
      unfold acceptedPrices at hp
      obtain ⟨x, hx, rfl⟩ := List.mem_map.mp hp
      exact (hrange x (List.mem_of_mem_filter hx)).2.2.2.2.1
    have hcount : (acceptedPrices env db itemId action).length < 4294967296 := by
      unfold acceptedPrices
      rw [List.length_map]
      exact Nat.lt_of_le_of_lt (List.length_filter_le _ _) hlen
    have hsum : (acceptedPrices env db itemId action).sum < 18446744073709551616 := by
      have h1 := sum_le_length_mul (acceptedPrices env db itemId action) 4294967295
        (fun p hp => by have := hbound p hp; omega)
      have h2 : (acceptedPrices env db itemId action).length * 4294967295 ≤
          4294967295 * 4294967295 := Nat.mul_le_mul_right _ (by omega)
      have h3 : 4294967295 * 4294967295 < 18446744073709551616 := by decide
      omega
    obtain ⟨hmin1, hmin2⟩ := minOf_spec _ hne
    obtain ⟨hmax1, hmax2⟩ := maxOf_spec _ hne
    refine ⟨MarketStatistics.mk (getU32 (acceptedPrices env db itemId action).length)
      (getU32 (maxOf (acceptedPrices env db itemId action)))
      (getU64 (acceptedPrices env db itemId action).sum)
      (getU32 (minOf (acceptedPrices env db itemId action))), ?_, ?_, ?_, ?_, ?_, ?_, ?_⟩
    · rw [hentry, if_pos hne]
    · exact Nat.mod_eq_of_lt hcount
    · simp only [getU32, Nat.mod_eq_of_lt (hbound _ hmin1)]
      exact hmin1
    · simp only [getU32, Nat.mod_eq_of_lt (hbound _ hmin1)]
      exact hmin2
    · simp only [getU32, Nat.mod_eq_of_lt (hbound _ hmax1)]
      exact hmax1
    · simp only [getU32, Nat.mod_eq_of_lt (hbound _ hmax1)]
      exact hmax2
    · exact Nat.mod_eq_of_lt hsum
  · intro hnil
    rw [hentry, if_neg (by simp [hnil])]

/-- Witness of `updateStatistics_aggregates`: the accepted purchases of item 3031
at 20, 10 and 30 give count 3, least price 10, greatest price 30 and sum 60,
and the stale purchase entry of item 3043 is left as it was. -/
theorem updateStatistics_aggregates_witness :
    getPurchaseStatistics (updateStatistics sampleEnv dbStats staleStatistics) 3031 =
      some { numTransactions := 3, lowestPrice := 10, highestPrice := 30, totalPrice := 60 } ∧
    getPurchaseStatistics (updateStatistics sampleEnv dbStats staleStatistics) 3043 =
      getPurchaseStatistics staleStatistics 3043 :=
  ⟨by decide,
   (updateStatistics_aggregates sampleEnv dbStats staleStatistics 1
     (List.perm_insertionSort keyLe) (by decide) (by decide)
     (by decide) 3043 0 (Or.inl rfl)).2 (by decide)⟩

end IOMarket
